import Mathlib

/-!
Verification of the SQL-dump fixing scripts (`fix_match_games.py`,
`fix_match_lineups.py`, `fix_dump.py`).  The scripts are modelled at the
character level: a document is a `List Char`, and each script becomes a pure
function from the input document to the list of files it writes plus the
lines it prints.  The regular expressions used by the scripts are rigid
(every quantified class is immediately followed by a literal that the class
excludes), so each one is embedded as the equivalent deterministic
maximal-munch scanner.
-/

set_option maxRecDepth 8000

namespace SupabaseFix

/-- single quote character (') -/
def qc : Char := Char.ofNat 39

/-- tab character -/
def tab : Char := Char.ofNat 9

/-- newline character -/
def nl : Char := Char.ofNat 10

def lpar : Char := '('
def rpar : Char := ')'
def comma : Char := ','
def space : Char := ' '
def semi : Char := ';'

/-- The characters matched by Python's `\s` (and stripped by `str.strip()`). -/
def isPySpace (c : Char) : Bool :=
  c == space || c == tab || c == nl || c == Char.ofNat 13 || c == Char.ofNat 11 ||
    c == Char.ofNat 12

/-- Python `str.strip()`: remove leading and trailing whitespace. -/
def pyStrip (s : List Char) : List Char :=
  ((s.dropWhile isPySpace).reverse.dropWhile isPySpace).reverse

/-- Test whether `lit` is a prefix of `s` (recursion on `lit` only, so that the check
reduces even when the tail of `s` is symbolic). -/
def litPref : List Char → List Char → Bool
  | [], _ => true
  | a :: as, s =>
    match s with
    | [] => false
    | b :: bs => a == b && litPref as bs

/-- Consume an exact literal from the front of the input. -/
def pLit (lit s : List Char) : Option (List Char) :=
  if litPref lit s then some (s.drop lit.length) else none

/-- Consume a non-empty maximal run of characters satisfying `p`
(the deterministic reading of a regex class with `+`, which is exact here
because every such class in the scripts is followed by a literal the class
excludes). -/
def pTake1 (p : Char → Bool) (s : List Char) : Option (List Char × List Char) :=
  if (s.takeWhile p).isEmpty then none
  else some (s.takeWhile p, s.drop (s.takeWhile p).length)

/-- A `+`-class capture followed by a literal separator. -/
def pField (p : Char → Bool) (sep s : List Char) : Option (List Char × List Char) :=
  match pTake1 p s with
  | none => none
  | some (t, r) =>
    match pLit sep r with
    | none => none
    | some r2 => some (t, r2)

def falseL : List Char := ['f', 'a', 'l', 's', 'e']
def trueL : List Char := ['t', 'r', 'u', 'e']

/-- The regex alternation `(false|true)` (equivalently `(true|false)`;
the alternatives start with different characters). -/
def pBool (s : List Char) : Option (List Char × List Char) :=
  if litPref falseL s then some (falseL, s.drop 5)
  else if litPref trueL s then some (trueL, s.drop 4)
  else none

/-- The alternation `(false|true)` followed by a literal separator. -/
def pBoolField (sep s : List Char) : Option (List Char × List Char) :=
  match pBool s with
  | none => none
  | some (t, r) =>
    match pLit sep r with
    | none => none
    | some r2 => some (t, r2)

/-- The regex character class `[,;]` capturing the row terminator. -/
def pTerm : List Char → Option (Char × List Char)
  | [] => none
  | c :: r => if c == comma || c == semi then some (c, r) else none

end SupabaseFix

namespace SupabaseFix

/-- One row of the old `match_games` data, as captured by the 18 groups of
`row_pattern` in `fix_match_games.py` (17 fields plus the terminator). -/
structure MatchRow where
  id : List Char
  match_id : List Char
  game_number : List Char
  home_player_id : List Char
  away_player_id : List Char
  winner_team_id : List Char
  winner_player_id : List Char
  home_action : List Char
  away_action : List Char
  break_and_run : List Char
  golden_break : List Char
  confirmed_by_home : List Char
  confirmed_by_away : List Char
  confirmed_at : List Char
  is_tiebreaker : List Char
  created_at : List Char
  updated_at : List Char
  term : Char
  deriving DecidableEq, Repr

def notQc (c : Char) : Bool := c != qc
def notComma (c : Char) : Bool := c != comma

/-- The Old Schema positional grammar: the conditions under which a
`MatchRow`'s serialisation is matched by `row_pattern`
(`[^']+` fields are non-empty and quote-free, `\d+` is a non-empty digit
run, `[^,]+` fields are non-empty and comma-free, boolean fields are the
literals `false`/`true`, the terminator is `,` or `;`). -/
def rowOk (r : MatchRow) : Bool :=
  !r.id.isEmpty && r.id.all notQc &&
  (!r.match_id.isEmpty && r.match_id.all notQc) &&
  (!r.game_number.isEmpty && r.game_number.all Char.isDigit) &&
  (!r.home_player_id.isEmpty && r.home_player_id.all notComma) &&
  (!r.away_player_id.isEmpty && r.away_player_id.all notComma) &&
  (!r.winner_team_id.isEmpty && r.winner_team_id.all notComma) &&
  (!r.winner_player_id.isEmpty && r.winner_player_id.all notComma) &&
  (!r.home_action.isEmpty && r.home_action.all notQc) &&
  (!r.away_action.isEmpty && r.away_action.all notQc) &&
  (r.break_and_run == falseL || r.break_and_run == trueL) &&
  (r.golden_break == falseL || r.golden_break == trueL) &&
  (r.confirmed_by_home == trueL || r.confirmed_by_home == falseL) &&
  (r.confirmed_by_away == trueL || r.confirmed_by_away == falseL) &&
  (!r.confirmed_at.isEmpty && r.confirmed_at.all notComma) &&
  (r.is_tiebreaker == falseL || r.is_tiebreaker == trueL) &&
  (!r.created_at.isEmpty && r.created_at.all notQc) &&
  (!r.updated_at.isEmpty && r.updated_at.all notQc) &&
  (r.term == comma || r.term == semi)

/-- Attempt to match `row_pattern` at the start of the input, returning the
captured groups and the rest of the input.  This is the deterministic
equivalent of Python matching
`\t\('([^']+)', '([^']+)', (\d+), ([^,]+), ([^,]+), ([^,]+), ([^,]+), '([^']+)', '([^']+)', (false|true), (false|true), (true|false), (true|false), ([^,]+), (false|true), '([^']+)', '([^']+)'\)([,;])`
at one position. -/
def matchRowAt (s : List Char) : Option (MatchRow × List Char) :=
  match pLit [tab, lpar, qc] s with
  | none => none
  | some s1 =>
  match pField notQc [qc, comma, space, qc] s1 with
  | none => none
  | some (f0, s2) =>
  match pField notQc [qc, comma, space] s2 with
  | none => none
  | some (f1, s3) =>
  match pField Char.isDigit [comma, space] s3 with
  | none => none
  | some (f2, s4) =>
  match pField notComma [comma, space] s4 with
  | none => none
  | some (f3, s5) =>
  match pField notComma [comma, space] s5 with
  | none => none
  | some (f4, s6) =>
  match pField notComma [comma, space] s6 with
  | none => none
  | some (f5, s7) =>
  match pField notComma [comma, space, qc] s7 with
  | none => none
  | some (f6, s8) =>
  match pField notQc [qc, comma, space, qc] s8 with
  | none => none
  | some (f7, s9) =>
  match pField notQc [qc, comma, space] s9 with
  | none => none
  | some (f8, s10) =>
  match pBoolField [comma, space] s10 with
  | none => none
  | some (f9, s11) =>
  match pBoolField [comma, space] s11 with
  | none => none
  | some (f10, s12) =>
  match pBoolField [comma, space] s12 with
  | none => none
  | some (f11, s13) =>
  match pBoolField [comma, space] s13 with
  | none => none
  | some (f12, s14) =>
  match pField notComma [comma, space] s14 with
  | none => none
  | some (f13, s15) =>
  match pBoolField [comma, space, qc] s15 with
  | none => none
  | some (f14, s16) =>
  match pField notQc [qc, comma, space, qc] s16 with
  | none => none
  | some (f15, s17) =>
  match pField notQc [qc, rpar] s17 with
  | none => none
  | some (f16, s18) =>
  match pTerm s18 with
  | none => none
  | some (t, rest) =>
    some (⟨f0, f1, f2, f3, f4, f5, f6, f7, f8, f9, f10, f11, f12, f13, f14,
      f15, f16, t⟩, rest)

/-- The constant appended for the new `game_type` column. -/
def gameTypeLit : List Char := qc :: ('e' :: 'i' :: 'g' :: 'h' :: 't' :: '_' ::
  'b' :: 'a' :: 'l' :: 'l' :: []) ++ [qc]

/-- Wrap a captured group back in single quotes. -/
def q (s : List Char) : List Char := qc :: (s ++ [qc])

def sepL : List Char := [comma, space]

/-- The output row built by `fix_match_games.py`:
`\t('{g0}', '{g1}', {g2}, {g3}, {g4}, {g5}, {g6}, '{g7}', '{g8}', {g9}, {g10}, {g13}, {g14}, '{g15}', '{g16}', 'eight_ball'){g17}`
(groups 11 and 12, `confirmed_by_home` and `confirmed_by_away`, are dropped,
and the constant `'eight_ball'` is appended). -/
def newRow (r : MatchRow) : List Char :=
  [tab, lpar] ++ q r.id ++ sepL ++ q r.match_id ++ sepL ++ r.game_number ++
    sepL ++ r.home_player_id ++ sepL ++ r.away_player_id ++ sepL ++
    r.winner_team_id ++ sepL ++ r.winner_player_id ++ sepL ++ q r.home_action ++
    sepL ++ q r.away_action ++ sepL ++ r.break_and_run ++ sepL ++
    r.golden_break ++ sepL ++ r.confirmed_at ++ sepL ++ r.is_tiebreaker ++
    sepL ++ q r.created_at ++ sepL ++ q r.updated_at ++ sepL ++ gameTypeLit ++
    [rpar, r.term]

/-- The serialisation of an old-schema row, written in exactly the nesting
order in which `matchRowAt` consumes it. -/
def oldRowText (r : MatchRow) : List Char :=
  tab :: lpar :: qc ::
  (r.id ++ (qc :: comma :: space :: qc ::
  (r.match_id ++ (qc :: comma :: space ::
  (r.game_number ++ (comma :: space ::
  (r.home_player_id ++ (comma :: space ::
  (r.away_player_id ++ (comma :: space ::
  (r.winner_team_id ++ (comma :: space ::
  (r.winner_player_id ++ (comma :: space :: qc ::
  (r.home_action ++ (qc :: comma :: space :: qc ::
  (r.away_action ++ (qc :: comma :: space ::
  (r.break_and_run ++ (comma :: space ::
  (r.golden_break ++ (comma :: space ::
  (r.confirmed_by_home ++ (comma :: space ::
  (r.confirmed_by_away ++ (comma :: space ::
  (r.confirmed_at ++ (comma :: space ::
  (r.is_tiebreaker ++ (comma :: space :: qc ::
  (r.created_at ++ (qc :: comma :: space :: qc ::
  (r.updated_at ++ (qc :: rpar :: r.term :: []))))))))))))))))))))))))))))))))))

end SupabaseFix

namespace SupabaseFix

/-! Length facts about the combinators, needed to run the scan with fuel. -/

theorem litPref_length_le :
    ∀ {l s : List Char}, litPref l s = true → l.length ≤ s.length := by
  intro l
  induction l with
  | nil => intro s _; exact Nat.zero_le _
  | cons a l ih =>
    intro s h
    cases s with
    | nil => simp [litPref] at h
    | cons b t =>
      simp only [litPref, Bool.and_eq_true] at h
      simpa [List.length_cons] using Nat.succ_le_succ (ih h.2)

theorem pLit_lt {lit s r : List Char} (hne : lit ≠ [])
    (h : pLit lit s = some r) : r.length < s.length := by
  unfold pLit at h
  split at h
  · next hp =>
    cases h
    have h1 : lit.length ≤ s.length := litPref_length_le hp
    have h2 : 0 < lit.length := List.length_pos.mpr hne
    simp only [List.length_drop]
    omega
  · exact absurd h (by simp)

theorem pTake1_lt {p : Char → Bool} {s t r : List Char}
    (h : pTake1 p s = some (t, r)) : r.length < s.length := by
  unfold pTake1 at h
  split at h
  · exact absurd h (by simp)
  · next hne =>
    cases h
    have h1 : (s.takeWhile p).length ≤ s.length := by
      simpa using (List.takeWhile_sublist p).length_le
    have h2 : 0 < (s.takeWhile p).length := by
      cases he : s.takeWhile p with
      | nil => rw [he] at hne; simp at hne
      | cons a l => simp [he]
    simp only [List.length_drop]
    omega

theorem pLit_le {lit s r : List Char} (h : pLit lit s = some r) :
    r.length ≤ s.length := by
  unfold pLit at h
  split at h
  · cases h; simp only [List.length_drop]; omega
  · exact absurd h (by simp)

theorem pField_lt {p : Char → Bool} {sep s t r : List Char}
    (h : pField p sep s = some (t, r)) : r.length < s.length := by
  unfold pField at h
  split at h
  · exact absurd h (by simp)
  · next t0 r0 heq =>
    split at h
    · exact absurd h (by simp)
    · next r2 heq2 =>
      cases h
      exact Nat.lt_of_le_of_lt (pLit_le heq2) (pTake1_lt heq)

theorem pBool_lt {s t r : List Char} (h : pBool s = some (t, r)) :
    r.length < s.length := by
  unfold pBool at h
  split at h
  · next hp =>
    cases h
    have := litPref_length_le hp
    simp only [List.length_drop]
    simp [falseL] at this
    omega
  · split at h
    · next hp =>
      cases h
      have := litPref_length_le hp
      simp only [List.length_drop]
      simp [trueL] at this
      omega
    · exact absurd h (by simp)

theorem pBoolField_lt {sep s t r : List Char}
    (h : pBoolField sep s = some (t, r)) : r.length < s.length := by
  unfold pBoolField at h
  split at h
  · exact absurd h (by simp)
  · next t0 r0 heq =>
    split at h
    · exact absurd h (by simp)
    · next r2 heq2 =>
      cases h
      exact Nat.lt_of_le_of_lt (pLit_le heq2) (pBool_lt heq)

theorem pTerm_lt {s : List Char} {t : Char} {r : List Char}
    (h : pTerm s = some (t, r)) : r.length < s.length := by
  cases s with
  | nil => exact absurd h (by simp [pTerm])
  | cons c s' =>
    simp only [pTerm] at h
    split at h
    · cases h
      simp
    · exact Option.noConfusion h

theorem matchRowAt_length_lt {s : List Char} {x : MatchRow} {rest : List Char}
    (h : matchRowAt s = some (x, rest)) : rest.length < s.length := by
  unfold matchRowAt at h
  rcases h1 : pLit [tab, lpar, qc] s with _ | s1
  · simp only [h1] at h
    exact Option.noConfusion h
  simp only [h1] at h
  rcases h2 : pField notQc [qc, comma, space, qc] s1 with _ | ⟨f0, s2⟩
  · simp only [h2] at h
    exact Option.noConfusion h
  simp only [h2] at h
  rcases h3 : pField notQc [qc, comma, space] s2 with _ | ⟨f1, s3⟩
  · simp only [h3] at h
    exact Option.noConfusion h
  simp only [h3] at h
  rcases h4 : pField Char.isDigit [comma, space] s3 with _ | ⟨f2, s4⟩
  · simp only [h4] at h
    exact Option.noConfusion h
  simp only [h4] at h
  rcases h5 : pField notComma [comma, space] s4 with _ | ⟨f3, s5⟩
  · simp only [h5] at h
    exact Option.noConfusion h
  simp only [h5] at h
  rcases h6 : pField notComma [comma, space] s5 with _ | ⟨f4, s6⟩
  · simp only [h6] at h
    exact Option.noConfusion h
  simp only [h6] at h
  rcases h7 : pField notComma [comma, space] s6 with _ | ⟨f5, s7⟩
  · simp only [h7] at h
    exact Option.noConfusion h
  simp only [h7] at h
  rcases h8 : pField notComma [comma, space, qc] s7 with _ | ⟨f6, s8⟩
  · simp only [h8] at h
    exact Option.noConfusion h
  simp only [h8] at h
  rcases h9 : pField notQc [qc, comma, space, qc] s8 with _ | ⟨f7, s9⟩
  · simp only [h9] at h
    exact Option.noConfusion h
  simp only [h9] at h
  rcases h10 : pField notQc [qc, comma, space] s9 with _ | ⟨f8, s10⟩
  · simp only [h10] at h
    exact Option.noConfusion h
  simp only [h10] at h
  rcases h11 : pBoolField [comma, space] s10 with _ | ⟨f9, s11⟩
  · simp only [h11] at h
    exact Option.noConfusion h
  simp only [h11] at h
  rcases h12 : pBoolField [comma, space] s11 with _ | ⟨f10, s12⟩
  · simp only [h12] at h
    exact Option.noConfusion h
  simp only [h12] at h
  rcases h13 : pBoolField [comma, space] s12 with _ | ⟨f11, s13⟩
  · simp only [h13] at h
    exact Option.noConfusion h
  simp only [h13] at h
  rcases h14 : pBoolField [comma, space] s13 with _ | ⟨f12, s14⟩
  · simp only [h14] at h
    exact Option.noConfusion h
  simp only [h14] at h
  rcases h15 : pField notComma [comma, space] s14 with _ | ⟨f13, s15⟩
  · simp only [h15] at h
    exact Option.noConfusion h
  simp only [h15] at h
  rcases h16 : pBoolField [comma, space, qc] s15 with _ | ⟨f14, s16⟩
  · simp only [h16] at h
    exact Option.noConfusion h
  simp only [h16] at h
  rcases h17 : pField notQc [qc, comma, space, qc] s16 with _ | ⟨f15, s17⟩
  · simp only [h17] at h
    exact Option.noConfusion h
  simp only [h17] at h
  rcases h18 : pField notQc [qc, rpar] s17 with _ | ⟨f16, s18⟩
  · simp only [h18] at h
    exact Option.noConfusion h
  simp only [h18] at h
  rcases h19 : pTerm s18 with _ | ⟨t, rest0⟩
  · simp only [h19] at h
    exact Option.noConfusion h
  simp only [h19] at h
  injection h with hpair
  injection hpair with hx hr
  subst hr
  have l1 := pLit_lt (by decide) h1
  have l2 := pField_lt h2
  have l3 := pField_lt h3
  have l4 := pField_lt h4
  have l5 := pField_lt h5
  have l6 := pField_lt h6
  have l7 := pField_lt h7
  have l8 := pField_lt h8
  have l9 := pField_lt h9
  have l10 := pField_lt h10
  have l11 := pBoolField_lt h11
  have l12 := pBoolField_lt h12
  have l13 := pBoolField_lt h13
  have l14 := pBoolField_lt h14
  have l15 := pField_lt h15
  have l16 := pBoolField_lt h16
  have l17 := pField_lt h17
  have l18 := pField_lt h18
  have l19 := pTerm_lt h19
  omega

/-- Model of `re.finditer(row_pattern, s)`: scan left to right, at each position try
`row_pattern`; on a match, emit its groups and continue after the match. -/
def findIterAux : Nat → List Char → List MatchRow
  | 0, _ => []
  | _ + 1, [] => []
  | fuel + 1, c :: r =>
    match matchRowAt (c :: r) with
    | some (row, rest) => row :: findIterAux fuel rest
    | none => findIterAux fuel r

def findIterRows (s : List Char) : List MatchRow := findIterAux s.length s

theorem findIterAux_irrel :
    ∀ (f1 : Nat) (f2 : Nat) (s : List Char), s.length ≤ f1 → s.length ≤ f2 →
      findIterAux f1 s = findIterAux f2 s := by
  intro f1
  induction f1 with
  | zero =>
    intro f2 s h1 _
    have : s = [] := List.eq_nil_of_length_eq_zero (Nat.le_zero.mp h1)
    subst this
    cases f2 <;> rfl
  | succ g ih =>
    intro f2 s h1 h2
    cases s with
    | nil => cases f2 <;> rfl
    | cons c r =>
      cases f2 with
      | zero => simp at h2
      | succ g2 =>
        simp only [findIterAux]
        cases hm : matchRowAt (c :: r) with
        | some pr =>
          obtain ⟨row, rest⟩ := pr
          have hlt := matchRowAt_length_lt hm
          simp only [List.length_cons] at hlt h1 h2
          simp only [hm]
          rw [ih g2 rest (by omega) (by omega)]
        | none =>
          simp only [List.length_cons] at h1 h2
          simp only [hm]
          exact ih g2 r (by omega) (by omega)

theorem findIterRows_match {s : List Char} {x : MatchRow} {rest : List Char}
    (h : matchRowAt s = some (x, rest)) :
    findIterRows s = x :: findIterRows rest := by
  cases s with
  | nil =>
    rw [show matchRowAt [] = none from rfl] at h
    exact Option.noConfusion h
  | cons c r =>
    have hlt := matchRowAt_length_lt h
    simp only [List.length_cons] at hlt
    show findIterAux (c :: r).length (c :: r) = _
    simp only [List.length_cons, findIterAux, h]
    rw [findIterAux_irrel r.length rest.length rest (by omega) (by omega)]
    rfl

theorem findIterRows_nomatch {c : Char} {r : List Char}
    (h : matchRowAt (c :: r) = none) :
    findIterRows (c :: r) = findIterRows r := by
  show findIterAux (c :: r).length (c :: r) = _
  simp only [List.length_cons, findIterAux, h]
  rfl

/-- The rows emitted for one Values segment:
`[new_row for row_match in row_pattern.finditer(values_part)]`. -/
def rewriteRows (s : List Char) : List (List Char) := (findIterRows s).map newRow

end SupabaseFix

namespace SupabaseFix

/-! Evaluation lemmas: matching `row_pattern` against the serialisation of a
grammar-conforming row recovers exactly that row. -/

theorem litPref_append_self :
    ∀ (l X : List Char), litPref l (l ++ X) = true := by
  intro l X
  induction l with
  | nil => rfl
  | cons a t ih => simp [litPref, ih]

theorem pLit_self (l X : List Char) : pLit l (l ++ X) = some X := by
  simp [pLit, litPref_append_self, List.drop_left]

theorem takeWhile_append_stop {p : Char → Bool} :
    ∀ {a : List Char} {b0 : Char} {bs : List Char}, a.all p = true →
      p b0 = false → (a ++ b0 :: bs).takeWhile p = a := by
  intro a
  induction a with
  | nil =>
    intro b0 bs _ hb
    simp [List.takeWhile_cons, hb]
  | cons x t ih =>
    intro b0 bs ha hb
    simp only [List.all_cons, Bool.and_eq_true] at ha
    simp [List.takeWhile_cons, ha.1, ih ha.2 hb]

theorem pTake1_spec {p : Char → Bool} {a : List Char} {b0 : Char}
    {bs : List Char} (hne : a.isEmpty = false) (ha : a.all p = true)
    (hb : p b0 = false) : pTake1 p (a ++ b0 :: bs) = some (a, b0 :: bs) := by
  simp [pTake1, takeWhile_append_stop ha hb, hne, List.drop_left]

theorem pLit_hdr (X : List Char) :
    pLit [tab, lpar, qc] (tab :: lpar :: qc :: X) = some X := rfl

theorem pLit_qq (X : List Char) :
    pLit [qc, comma, space, qc] (qc :: comma :: space :: qc :: X) = some X := rfl

theorem pLit_q (X : List Char) :
    pLit [qc, comma, space] (qc :: comma :: space :: X) = some X := rfl

theorem pLit_cm (X : List Char) :
    pLit [comma, space] (comma :: space :: X) = some X := rfl

theorem pLit_cmq (X : List Char) :
    pLit [comma, space, qc] (comma :: space :: qc :: X) = some X := rfl

theorem pLit_cl (X : List Char) :
    pLit [qc, rpar] (qc :: rpar :: X) = some X := rfl

theorem pLit_sepL (X : List Char) :
    pLit sepL (comma :: space :: X) = some X := rfl

theorem pLit_tl (X : List Char) :
    pLit [tab, lpar] (tab :: lpar :: X) = some X := rfl

theorem pField_qq {a rest : List Char} (hne : a.isEmpty = false)
    (ha : a.all notQc = true) :
    pField notQc [qc, comma, space, qc]
      (a ++ qc :: comma :: space :: qc :: rest) = some (a, rest) := by
  simp only [pField, pTake1_spec hne ha (show notQc qc = false by decide),
    pLit_qq]

theorem pField_q {a rest : List Char} (hne : a.isEmpty = false)
    (ha : a.all notQc = true) :
    pField notQc [qc, comma, space] (a ++ qc :: comma :: space :: rest) =
      some (a, rest) := by
  simp only [pField, pTake1_spec hne ha (show notQc qc = false by decide),
    pLit_q]

theorem pField_dig {a rest : List Char} (hne : a.isEmpty = false)
    (ha : a.all Char.isDigit = true) :
    pField Char.isDigit [comma, space] (a ++ comma :: space :: rest) =
      some (a, rest) := by
  simp only [pField,
    pTake1_spec hne ha (show Char.isDigit comma = false by decide), pLit_cm]

theorem pField_cm {a rest : List Char} (hne : a.isEmpty = false)
    (ha : a.all notComma = true) :
    pField notComma [comma, space] (a ++ comma :: space :: rest) =
      some (a, rest) := by
  simp only [pField, pTake1_spec hne ha (show notComma comma = false by decide),
    pLit_cm]

theorem pField_cmq {a rest : List Char} (hne : a.isEmpty = false)
    (ha : a.all notComma = true) :
    pField notComma [comma, space, qc] (a ++ comma :: space :: qc :: rest) =
      some (a, rest) := by
  simp only [pField, pTake1_spec hne ha (show notComma comma = false by decide),
    pLit_cmq]

theorem pField_cl {a rest : List Char} (hne : a.isEmpty = false)
    (ha : a.all notQc = true) :
    pField notQc [qc, rpar] (a ++ qc :: rpar :: rest) = some (a, rest) := by
  simp only [pField, pTake1_spec hne ha (show notQc qc = false by decide),
    pLit_cl]

theorem bool_lit_cases {b : List Char}
    (hb : (b == falseL || b == trueL) = true) : b = falseL ∨ b = trueL := by
  simp only [Bool.or_eq_true, beq_iff_eq] at hb
  exact hb

theorem bool_lit_cases' {b : List Char}
    (hb : (b == trueL || b == falseL) = true) : b = falseL ∨ b = trueL := by
  simp only [Bool.or_eq_true, beq_iff_eq] at hb
  exact hb.symm

theorem pBoolField_cm {b rest : List Char}
    (hb : (b == falseL || b == trueL) = true) :
    pBoolField [comma, space] (b ++ comma :: space :: rest) = some (b, rest) := by
  rcases bool_lit_cases hb with rfl | rfl <;> rfl

theorem pBoolField_cm' {b rest : List Char}
    (hb : (b == trueL || b == falseL) = true) :
    pBoolField [comma, space] (b ++ comma :: space :: rest) = some (b, rest) := by
  rcases bool_lit_cases' hb with rfl | rfl <;> rfl

theorem pBoolField_cmq {b rest : List Char}
    (hb : (b == falseL || b == trueL) = true) :
    pBoolField [comma, space, qc] (b ++ comma :: space :: qc :: rest) =
      some (b, rest) := by
  rcases bool_lit_cases hb with rfl | rfl <;> rfl

theorem pTerm_cons {c : Char} {rest : List Char}
    (hc : (c == comma || c == semi) = true) :
    pTerm (c :: rest) = some (c, rest) := by
  simp [pTerm, hc]

/-- Matching `row_pattern` at the start of `oldRowText r ++ rest` succeeds
and captures exactly the fields of `r`, for every grammar-conforming `r`. -/
theorem matchRowAt_oldRowText {r : MatchRow} (hr : rowOk r = true)
    (rest : List Char) : matchRowAt (oldRowText r ++ rest) = some (r, rest) := by
  simp only [rowOk, Bool.and_eq_true, Bool.not_eq_true'] at hr
  obtain ⟨⟨⟨⟨⟨⟨⟨⟨⟨⟨⟨⟨⟨⟨⟨⟨⟨⟨hid1, hid2⟩, hmi1, hmi2⟩, hgn1, hgn2⟩, hhp1, hhp2⟩,
    hap1, hap2⟩, hwt1, hwt2⟩, hwp1, hwp2⟩, hha1, hha2⟩, haa1, haa2⟩, hbr⟩,
    hgb⟩, hch⟩, hca⟩, hcat1, hcat2⟩, htb⟩, hcr1, hcr2⟩, hup1, hup2⟩,
    hterm⟩ := hr
  simp only [oldRowText, List.cons_append, List.append_assoc, List.nil_append]
  simp only [matchRowAt, pLit_hdr, pField_qq hid1 hid2, pField_q hmi1 hmi2,
    pField_dig hgn1 hgn2, pField_cm hhp1 hhp2, pField_cm hap1 hap2,
    pField_cm hwt1 hwt2, pField_cmq hwp1 hwp2, pField_qq hha1 hha2,
    pField_q haa1 haa2, pBoolField_cm hbr, pBoolField_cm hgb,
    pBoolField_cm' hch, pBoolField_cm' hca, pField_cm hcat1 hcat2,
    pBoolField_cmq htb, pField_qq hcr1 hcr2, pField_cl hup1 hup2,
    pTerm_cons hterm]

end SupabaseFix

namespace SupabaseFix

/-! Per-row and per-segment structure of the rewriter. -/

theorem getLast?_some_cons {x : Char} {l : List Char} {c : Char}
    (h : l.getLast? = some c) : (x :: l).getLast? = some c := by
  cases l with
  | nil => simp at h
  | cons y t => rw [List.getLast?_cons_cons]; exact h

theorem getLast?_some_append {A l : List Char} {c : Char}
    (h : l.getLast? = some c) : (A ++ l).getLast? = some c := by
  cases l with
  | nil => simp at h
  | cons y t => rw [List.getLast?_append_cons]; exact h

/-- One maximal block of a Values segment handed to `finditer`: either the
serialisation of a row, or arbitrary filler text. -/
inductive SegPart where
  | row (r : MatchRow)
  | filler (j : List Char)

def partText : SegPart → List Char
  | .row r => oldRowText r
  | .filler j => j

def segText : List SegPart → List Char
  | [] => []
  | p :: ps => partText p ++ segText ps

/-- The rows of a segment, in order. -/
def segRows : List SegPart → List MatchRow
  | [] => []
  | .row r :: ps => r :: segRows ps
  | .filler _ :: ps => segRows ps

/-- Well-formedness of a segment: every row conforms to the Old Schema
grammar, and filler text contains no tab (so no match can start inside it). -/
def segOk : List SegPart → Bool
  | [] => true
  | .row r :: ps => rowOk r && segOk ps
  | .filler j :: ps => j.all (fun c => c != tab) && segOk ps

theorem matchRowAt_no_tab {c : Char} (hc : ¬c = tab) (s : List Char) :
    matchRowAt (c :: s) = none := by
  have hbeq : (tab == c) = false := by
    rw [beq_eq_false_iff_ne]
    exact fun h => hc h.symm
  have hfalse : litPref [tab, lpar, qc] (c :: s) = false := by
    simp [litPref, hbeq]
  simp [matchRowAt, pLit, hfalse]

theorem findIter_skips_filler {j : List Char}
    (hj : j.all (fun c => c != tab) = true) :
    ∀ rest, findIterRows (j ++ rest) = findIterRows rest := by
  induction j with
  | nil => intro rest; rfl
  | cons c t ih =>
    intro rest
    simp only [List.all_cons, Bool.and_eq_true] at hj
    have hc : ¬c = tab := by simpa [bne] using hj.1
    rw [List.cons_append, findIterRows_nomatch (matchRowAt_no_tab hc _),
      ih hj.2]

/-- On a well-formed segment, the scan finds exactly the segment's rows. -/
theorem findIterRows_segText {ps : List SegPart} (h : segOk ps = true) :
    findIterRows (segText ps) = segRows ps := by
  induction ps with
  | nil => rfl
  | cons p t ih =>
    cases p with
    | row r =>
      simp only [segOk, Bool.and_eq_true] at h
      have hm := matchRowAt_oldRowText h.1 (segText t)
      simp only [segText, partText, segRows]
      rw [findIterRows_match hm, ih h.2]
    | filler j =>
      simp only [segOk, Bool.and_eq_true] at h
      simp only [segText, partText, segRows]
      rw [findIter_skips_filler h.1, ih h.2]

end SupabaseFix

namespace SupabaseFix

/-! Claims about the per-row rewriter. -/

/-- A sample grammar-conforming row used to instantiate hypotheses. -/
def wRow : MatchRow :=
  ⟨("a1").data, ("m1").data, ("2").data, ("'p1'").data, ("'p2'").data,
    ("'t1'").data, ("'p1'").data, ("break").data, ("rack").data, falseL,
    falseL, trueL, trueL, ("NULL").data, falseL, ("2025-01-01").data,
    ("2025-01-01").data, comma⟩

/-- Claim C1: for every input row matching the Old Schema positional grammar,
the Row Rewriter produces exactly one output row; that row keeps the literal
text of every field except positions 12 and 13 (`confirmed_by_home` and
`confirmed_by_away`, which are dropped), appends the constant `'eight_ball'`
as the final field, and lists the kept fields in the declared output order. -/
theorem claim_c1 (r : MatchRow) (hr : rowOk r = true) :
    rewriteRows (oldRowText r) = [newRow r] ∧
    newRow r = [tab, lpar] ++ List.intercalate sepL
        [q r.id, q r.match_id, r.game_number, r.home_player_id,
         r.away_player_id, r.winner_team_id, r.winner_player_id,
         q r.home_action, q r.away_action, r.break_and_run, r.golden_break,
         r.confirmed_at, r.is_tiebreaker, q r.created_at, q r.updated_at,
         gameTypeLit] ++ [rpar, r.term] := by
  constructor
  · have hm : matchRowAt (oldRowText r) = some (r, []) := by
      have h := matchRowAt_oldRowText hr []
      rwa [List.append_nil] at h
    unfold rewriteRows
    rw [findIterRows_match hm]
    rfl
  · simp [newRow, List.intercalate, List.intersperse_cons_cons,
      List.intersperse_singleton, List.append_assoc]

theorem claim_c1_witness :
    rowOk wRow = true ∧ rewriteRows (oldRowText wRow) = [newRow wRow] :=
  ⟨by decide, (claim_c1 wRow (by decide)).1⟩

/-- The input row of the spec's example for C2, exactly as the spec writes it
(note: no space after the commas separating the quoted fields). -/
def c2InputRaw : List Char :=
  ("('a1','m1', 2, 'p1','p2','t1','p1','break','rack', false, false, true, true, NULL, false, '2025-01-01','2025-01-01'),").data

/-- The output row the spec's example expects. -/
def c2ClaimedOutput : List Char :=
  ("('a1','m1', 2, 'p1','p2','t1','p1','break','rack', false, false, NULL, false, '2025-01-01','2025-01-01', 'eight_ball'),").data

/-- Claim C2, counterexample: the example input row of the spec does not match
`row_pattern` at all — the pattern requires a space after every
field-separating comma (`', '`), and the example writes `'a1','m1'` with no
space — so the Row Rewriter emits nothing for it (with or without the
tab that the pattern also requires), rather than the claimed output row. -/
theorem claim_c2_counterexample :
    rewriteRows c2InputRaw = [] ∧ rewriteRows (tab :: c2InputRaw) = [] ∧
    rewriteRows (tab :: c2InputRaw) ≠ [c2ClaimedOutput] ∧
    rewriteRows (tab :: c2InputRaw) ≠ [tab :: c2ClaimedOutput] := by decide

/-- The C2 example row with the separators `row_pattern` actually requires
(`', '` between all fields, and the leading tab). -/
def c2Row : MatchRow :=
  ⟨("a1").data, ("m1").data, ("2").data, ("'p1'").data, ("'p2'").data,
    ("'t1'").data, ("'p1'").data, ("break").data, ("rack").data, falseL,
    falseL, trueL, trueL, ("NULL").data, falseL, ("2025-01-01").data,
    ("2025-01-01").data, comma⟩

/-- Claim C2, amended: on the example row written with the `', '` separators
and leading tab required by `row_pattern`, the Row Rewriter yields exactly one
output row, which drops positions 12 and 13, appends `'eight_ball'`, and uses
`', '` separators throughout. -/
theorem claim_c2 :
    rewriteRows (oldRowText c2Row) = [newRow c2Row] ∧
    newRow c2Row =
      ("\t('a1', 'm1', 2, 'p1', 'p2', 't1', 'p1', 'break', 'rack', false, false, NULL, false, '2025-01-01', '2025-01-01', 'eight_ball'),").data ∧
    oldRowText c2Row =
      ("\t('a1', 'm1', 2, 'p1', 'p2', 't1', 'p1', 'break', 'rack', false, false, true, true, NULL, false, '2025-01-01', '2025-01-01'),").data := by
  decide

/-- Claim C6: every emitted output row ends with exactly the trailing
punctuation character captured from its input row (so a final row ending in
`;` keeps its semicolon and any other row keeps its comma). -/
theorem claim_c6 (r : MatchRow) :
    (newRow r).getLast? = some r.term ∧
    (oldRowText r).getLast? = some r.term := by
  constructor
  · have h : ∀ A : List Char, (A ++ [rpar, r.term]).getLast? = some r.term := by
      intro A
      exact getLast?_some_append rfl
    simp only [newRow, ← List.append_assoc]
    exact h _
  · simp only [oldRowText]
    repeat first
      | exact rfl
      | apply getLast?_some_cons
      | apply getLast?_some_append

end SupabaseFix

namespace SupabaseFix

/-! The orchestration scripts.  Each is a pure function from the input
document to the files it writes and the lines it prints. -/

structure ScriptResult where
  writes : List (String × List Char)
  stdout : List String
  deriving DecidableEq, Repr

/-- The literal `INSERT INTO "public"."<table>" (`. -/
def insHeaderLit (table : List Char) : List Char :=
  ("INSERT INTO \"public\".\"").data ++ table ++ ("\" (").data

def closeValuesLit : List Char := (") VALUES").data

/-- The lookahead `(?=\n\n--|$)` terminating the lazily-matched block. -/
def sentinelLit : List Char := ("\n\n--").data

/-- The lazy group `[\s\S]*?` up to the first position where the lookahead `\n\n--` (or end
of input) succeeds: returns the shortest such body and the remainder. -/
def lazyBody : List Char → List Char × List Char
  | [] => ([], [])
  | c :: r =>
    if litPref sentinelLit (c :: r) then ([], c :: r)
    else
      match lazyBody r with
      | (b, rest) => (c :: b, rest)

/-- Try the whole search pattern
`INSERT INTO "public"\."<table>" \([^)]+\) VALUES\s*([\s\S]*?)(?=\n\n--|$)`
at the start of the input, returning `group(0)` on success.  (`\s*` is greedy
and the lazy group can always stop at the end of input, so the match is the
header, then the maximal whitespace run, then the minimal body.) -/
def tryInsAt (table : List Char) (s : List Char) : Option (List Char) :=
  match pLit (insHeaderLit table) s with
  | none => none
  | some s1 =>
    match pTake1 (fun c => c != rpar) s1 with
    | none => none
    | some (cols, s2) =>
      match pLit closeValuesLit s2 with
      | none => none
      | some s3 =>
        some (insHeaderLit table ++ cols ++ closeValuesLit ++
          s3.takeWhile isPySpace ++
          (lazyBody (s3.drop (s3.takeWhile isPySpace).length)).1)

/-- Model of `re.search`: the match at the leftmost position where the pattern
succeeds. -/
def searchIns (table : List Char) : List Char → Option (List Char)
  | [] => none
  | c :: r =>
    match tryInsAt table (c :: r) with
    | some b => some b
    | none => searchIns table r

def pyFindAux (pat : List Char) : List Char → Nat → Option Nat
  | [], i => if litPref pat [] then some i else none
  | c :: r, i =>
    if litPref pat (c :: r) then some i else pyFindAux pat r (i + 1)

/-- Python `str.find`: index of the first occurrence, `-1` if absent. -/
def pyFindInt (s pat : List Char) : Int :=
  match pyFindAux pat s 0 with
  | some i => (i : Int)
  | none => -1

def valuesLit : List Char := ("VALUES").data

def matchGamesTable : List Char := ("match_games").data
def matchLineupsTable : List Char := ("match_lineups").data

/-- The slice `values_block[values_block.find('VALUES') + 6:].strip()`. -/
def gamesValuesPart (block : List Char) : List Char :=
  pyStrip (block.drop (Int.toNat (pyFindInt block valuesLit + 6)))

/-- The replacement column list of `fix_match_games.py` (`new_columns`). -/
def newColumnsGames : List Char :=
  ("INSERT INTO \"public\".\"match_games\" (\"id\", \"match_id\", \"game_number\", \"home_player_id\", \"away_player_id\", \"winner_team_id\", \"winner_player_id\", \"home_action\", \"away_action\", \"break_and_run\", \"golden_break\", \"confirmed_at\", \"is_tiebreaker\", \"created_at\", \"updated_at\", \"game_type\") VALUES").data

/-- Python `'\n'.join`. -/
def joinNL : List (List Char) → List Char
  | [] => []
  | [x] => x
  | x :: y :: t => x ++ nl :: joinNL (y :: t)

def gamesPreamble : List Char :=
  ("-- Fixed match_games data\n-- Removed confirmed_by_home/away boolean columns, added game_type\n\n").data

/-- The script `fix_match_games.py`: locate the `match_games` INSERT block, rewrite its
rows, and either write `restore_match_games.sql` or report. -/
def fixMatchGames (content : List Char) : ScriptResult :=
  match searchIns matchGamesTable content with
  | none => ⟨[], ["Could not find match_games INSERT statement"]⟩
  | some block =>
    match findIterRows (gamesValuesPart block) with
    | [] => ⟨[], ["No rows matched the pattern"]⟩
    | r0 :: rt =>
      ⟨[("restore_match_games.sql",
          gamesPreamble ++ newColumnsGames ++
            nl :: joinNL ((r0 :: rt).map newRow) ++ [nl])],
        ["Created restore_match_games.sql with " ++
          Nat.repr ((r0 :: rt).map newRow).length ++ " rows"]⟩

/-- The rows parsed out of the located `match_games` block (empty when the
block is absent). -/
def gamesParsedRows (content : List Char) : List MatchRow :=
  match searchIns matchGamesTable content with
  | none => []
  | some block => findIterRows (gamesValuesPart block)

/-- Python `str.replace` (and `re.sub` with an all-literal pattern):
left-to-right, non-overlapping replacement of every occurrence. -/
def pyReplaceAux (old new : List Char) : Nat → List Char → List Char
  | 0, s => s
  | _ + 1, [] => []
  | fuel + 1, c :: r =>
    if litPref old (c :: r) then
      new ++ pyReplaceAux old new fuel ((c :: r).drop old.length)
    else c :: pyReplaceAux old new fuel r

def pyReplace (old new s : List Char) : List Char :=
  pyReplaceAux old new s.length s

def teamHandicapTok : List Char := ("\"team_handicap\"").data
def homeTeamModifierTok : List Char := ("\"home_team_modifier\"").data

/-- The character class `[a-f0-9-]`. -/
def isUuidChar (c : Char) : Bool :=
  (97 ≤ c.toNat && c.toNat ≤ 102) || c.isDigit || c == '-'

/-- One match of `\t\('[a-f0-9-]+',` (used only to count lineup rows). -/
def lineupRowAt (s : List Char) : Option (List Char) :=
  match pLit [tab, lpar, qc] s with
  | none => none
  | some s1 =>
    match pTake1 isUuidChar s1 with
    | none => none
    | some (_, s2) => pLit [qc, comma] s2

def countLineupAux : Nat → List Char → Nat
  | 0, _ => 0
  | _ + 1, [] => 0
  | fuel + 1, c :: r =>
    match lineupRowAt (c :: r) with
    | some rest => 1 + countLineupAux fuel rest
    | none => countLineupAux fuel r

/-- The count `len(re.findall(r"\t\('[a-f0-9-]+',", values_block))`. -/
def countLineupRows (s : List Char) : Nat := countLineupAux s.length s

def lineupsPreamble : List Char :=
  ("-- Fixed match_lineups data\n-- Renamed team_handicap to home_team_modifier\n\n").data

/-- The script `fix_match_lineups.py`: locate the `match_lineups` INSERT block, rename
the `team_handicap` column, and write `restore_match_lineups.sql`. -/
def fixMatchLineups (content : List Char) : ScriptResult :=
  match searchIns matchLineupsTable content with
  | none => ⟨[], ["Could not find match_lineups INSERT statement"]⟩
  | some block =>
    ⟨[("restore_match_lineups.sql",
        lineupsPreamble ++ pyReplace teamHandicapTok homeTeamModifierTok block
          ++ [nl])],
      ["Created restore_match_lineups.sql with " ++
        Nat.repr (countLineupRows block) ++ " rows"]⟩

/-- The `league_operators` INSERT header matched by
`league_operators_pattern` in `fix_dump.py` (the regex is all-literal). -/
def loHeaderOld : List Char :=
  ("INSERT INTO \"public\".\"league_operators\" (\"id\", \"member_id\", \"organization_name\", \"organization_address\", \"organization_city\", \"organization_state\", \"organization_zip_code\", \"contact_disclaimer_acknowledged\", \"league_email\", \"email_visibility\", \"league_phone\", \"phone_visibility\", \"stripe_customer_id\", \"payment_method_id\", \"card_last4\", \"card_brand\", \"expiry_month\", \"expiry_year\", \"billing_zip\", \"payment_verified\", \"created_at\", \"updated_at\", \"profanity_filter_enabled\") VALUES").data

/-- The literal `league_operators_replacement` in `fix_dump.py`. -/
def loHeaderNew : List Char :=
  ("INSERT INTO \"public\".\"organizations\" (\"id\", \"created_by\", \"organization_name\", \"organization_address\", \"organization_city\", \"organization_state\", \"organization_zip_code\", \"organization_email\", \"organization_email_visibility\", \"organization_phone\", \"organization_phone_visibility\", \"stripe_customer_id\", \"payment_method_id\", \"card_last4\", \"card_brand\", \"expiry_month\", \"expiry_year\", \"billing_zip\", \"payment_verified\", \"created_at\", \"updated_at\", \"profanity_filter_enabled\") VALUES").data

def cboiTok : List Char := ("\"created_by_operator_id\"").data
def opIdTok : List Char := ("\"operator_id\"").data
def orgIdTok : List Char := ("\"organization_id\"").data
def aoiTok : List Char := ("\"assigned_operator_id\"").data
def aorgIdTok : List Char := ("\"assigned_organization_id\"").data
def cdaTok : List Char := ("\"contact_disclaimer_acknowledged\"").data

/-- The helper defined in `fix_dump.py` for fixing `league_operators` VALUES
rows: it returns `match.group(0)` unchanged (and is never invoked). -/
def fix_league_operator_values (m : List Char) : List Char := m

/-- The document transformation of `fix_dump.py`: the `league_operators`
header substitution followed by the three token replacements. -/
def fixDumpContent (content : List Char) : List Char :=
  pyReplace aoiTok aorgIdTok
    (pyReplace opIdTok orgIdTok
      (pyReplace cboiTok orgIdTok
        (pyReplace loHeaderOld loHeaderNew content)))

def fixDump (content : List Char) : ScriptResult :=
  ⟨[("local-data-dump-fixed.sql", fixDumpContent content)],
   ["Created local-data-dump-fixed.sql",
    "Note: match_games confirmed_by fields need manual fix (boolean->uuid)",
    "Note: league_operators->organizations needs contact_disclaimer_acknowledged removed from values"]⟩

end SupabaseFix

namespace SupabaseFix

/-! Structural facts about `pyReplace` and occurrence counting. -/

/-- Number of positions of `s` (including the end position) at which `pat`
occurs as a substring. -/
def occCount (pat : List Char) : List Char → Nat
  | [] => if pat.isEmpty then 1 else 0
  | c :: r => (if litPref pat (c :: r) then 1 else 0) + occCount pat r

theorem length_pos_of_ne_nil {l : List Char} (h : l ≠ []) : 0 < l.length := by
  cases l with
  | nil => exact absurd rfl h
  | cons a t => simp

theorem pyReplaceAux_irrel {old new : List Char} (hne : old ≠ []) :
    ∀ (f1 f2 : Nat) (s : List Char), s.length ≤ f1 → s.length ≤ f2 →
      pyReplaceAux old new f1 s = pyReplaceAux old new f2 s := by
  intro f1
  induction f1 with
  | zero =>
    intro f2 s h1 _
    have : s = [] := List.eq_nil_of_length_eq_zero (Nat.le_zero.mp h1)
    subst this
    cases f2 <;> rfl
  | succ g ih =>
    intro f2 s h1 h2
    cases s with
    | nil => cases f2 <;> rfl
    | cons c r =>
      cases f2 with
      | zero => simp at h2
      | succ g2 =>
        simp only [pyReplaceAux]
        simp only [List.length_cons] at h1 h2
        have hol := length_pos_of_ne_nil hne
        cases hp : litPref old (c :: r) with
        | true =>
          simp only [hp, if_true]
          have hd : ((c :: r).drop old.length).length ≤ g := by
            simp only [List.length_drop, List.length_cons]
            omega
          rw [ih g2 _ hd (by simp only [List.length_drop, List.length_cons]; omega)]
        | false =>
          simp only [hp, if_false, Bool.false_eq_true]
          rw [ih g2 r (by omega) (by omega)]

theorem pyReplace_match {old new : List Char} (hne : old ≠ []) {c : Char}
    {r : List Char} (hp : litPref old (c :: r) = true) :
    pyReplace old new (c :: r) =
      new ++ pyReplace old new ((c :: r).drop old.length) := by
  have hol := length_pos_of_ne_nil hne
  show pyReplaceAux old new (c :: r).length (c :: r) = _
  simp only [List.length_cons, pyReplaceAux, hp, if_true]
  congr 1
  exact pyReplaceAux_irrel hne _ _ _
    (by simp only [List.length_drop, List.length_cons]; omega) (le_refl _)

theorem pyReplace_nomatch {old new : List Char} {c : Char} {r : List Char}
    (hp : litPref old (c :: r) = false) :
    pyReplace old new (c :: r) = c :: pyReplace old new r := by
  show pyReplaceAux old new (c :: r).length (c :: r) = _
  simp only [List.length_cons, pyReplaceAux, hp, if_false, Bool.false_eq_true]
  rfl

theorem pyReplace_head {old new s : List Char} (hne : old ≠ [])
    (hp : litPref old s = true) :
    pyReplace old new s = new ++ pyReplace old new (s.drop old.length) := by
  cases s with
  | nil =>
    cases old with
    | nil => exact absurd rfl hne
    | cons a as => simp [litPref] at hp
  | cons c r => exact pyReplace_match hne hp

theorem occCount_zero_replace {old new : List Char} :
    ∀ {s : List Char}, occCount old s = 0 → pyReplace old new s = s := by
  intro s
  induction s with
  | nil => intro _; rfl
  | cons c r ih =>
    intro h
    simp only [occCount] at h
    cases hp : litPref old (c :: r) with
    | true => rw [hp] at h; simp at h
    | false =>
      rw [hp] at h
      simp only [if_false, Bool.false_eq_true, Nat.zero_add] at h
      rw [pyReplace_nomatch hp, ih h]

end SupabaseFix

namespace SupabaseFix

/-! Claims about the orchestration scripts. -/

/-- Claim C4: when the target table's INSERT statement is absent, each script
reports a "not found" line on stdout and writes nothing at all (so the input
document is untouched). -/
theorem claim_c4 (content : List Char) :
    (searchIns matchGamesTable content = none →
      fixMatchGames content =
        ⟨[], ["Could not find match_games INSERT statement"]⟩) ∧
    (searchIns matchLineupsTable content = none →
      fixMatchLineups content =
        ⟨[], ["Could not find match_lineups INSERT statement"]⟩) := by
  constructor
  · intro h
    simp only [fixMatchGames, h]
  · intro h
    simp only [fixMatchLineups, h]

theorem claim_c4_witness :
    searchIns matchGamesTable (("hello").data) = none ∧
    fixMatchGames (("hello").data) =
      ⟨[], ["Could not find match_games INSERT statement"]⟩ ∧
    searchIns matchLineupsTable (("hello").data) = none ∧
    fixMatchLineups (("hello").data) =
      ⟨[], ["Could not find match_lineups INSERT statement"]⟩ :=
  ⟨by decide, (claim_c4 (("hello").data)).1 (by decide), by decide,
    (claim_c4 (("hello").data)).2 (by decide)⟩

theorem gamesWritesNames (content : List Char) :
    (fixMatchGames content).writes.map Prod.fst = [] ∨
      (fixMatchGames content).writes.map Prod.fst =
        ["restore_match_games.sql"] := by
  rcases hs : searchIns matchGamesTable content with _ | block
  · left; simp only [fixMatchGames, hs]; rfl
  · rcases hr : findIterRows (gamesValuesPart block) with _ | ⟨r0, rt⟩
    · left; simp only [fixMatchGames, hs, hr]; rfl
    · right; simp only [fixMatchGames, hs, hr]; rfl

theorem lineupsWritesNames (content : List Char) :
    (fixMatchLineups content).writes.map Prod.fst = [] ∨
      (fixMatchLineups content).writes.map Prod.fst =
        ["restore_match_lineups.sql"] := by
  rcases hs : searchIns matchLineupsTable content with _ | block
  · left; simp only [fixMatchLineups, hs]; rfl
  · right; simp only [fixMatchLineups, hs]; rfl

/-- Claim C8: the rewriters only ever produce new text: on any input document
the only file either script can write is its own fresh output file
(`restore_match_games.sql` / `restore_match_lineups.sql`), and in particular
the input document `local-data-dump.sql` is never written. -/
theorem claim_c8 (content : List Char) :
    ((fixMatchGames content).writes.map Prod.fst = [] ∨
      (fixMatchGames content).writes.map Prod.fst =
        ["restore_match_games.sql"]) ∧
    ((fixMatchLineups content).writes.map Prod.fst = [] ∨
      (fixMatchLineups content).writes.map Prod.fst =
        ["restore_match_lineups.sql"]) ∧
    "local-data-dump.sql" ∉ (fixMatchGames content).writes.map Prod.fst ∧
    "local-data-dump.sql" ∉ (fixMatchLineups content).writes.map Prod.fst := by
  have hg := gamesWritesNames content
  have hl := lineupsWritesNames content
  refine ⟨hg, hl, ?_, ?_⟩
  · rcases hg with h | h <;> rw [h] <;> decide
  · rcases hl with h | h <;> rw [h] <;> decide

/-- Claim C10: `restore_match_games.sql` is created iff the `match_games`
INSERT statement is found and at least one row matches the pattern; when the
statement is found but no row matches, nothing is written and the script
prints exactly "No rows matched the pattern". -/
theorem claim_c10 (content : List Char) :
    ((fixMatchGames content).writes ≠ [] ↔
      (searchIns matchGamesTable content).isSome = true ∧
        gamesParsedRows content ≠ []) ∧
    (searchIns matchGamesTable content ≠ none →
      gamesParsedRows content = [] →
      (fixMatchGames content).writes = [] ∧
      (fixMatchGames content).stdout = ["No rows matched the pattern"]) := by
  rcases hs : searchIns matchGamesTable content with _ | block
  · refine ⟨by simp [fixMatchGames, gamesParsedRows, hs], ?_⟩
    intro hne
    exact absurd rfl hne
  · rcases hr : findIterRows (gamesValuesPart block) with _ | ⟨r0, rt⟩
    · refine ⟨by simp [fixMatchGames, gamesParsedRows, hs, hr], ?_⟩
      intro _ _
      constructor
      · simp only [fixMatchGames, hs, hr]
      · simp only [fixMatchGames, hs, hr]
    · refine ⟨by simp [fixMatchGames, gamesParsedRows, hs, hr], ?_⟩
      intro _ habs
      simp only [gamesParsedRows, hs, hr] at habs
      exact absurd habs (by simp)

/-- A document that contains the `match_games` INSERT header but whose Values
segment matches no row. -/
def c10Doc : List Char :=
  ("INSERT INTO \"public\".\"match_games\" (\"id\") VALUES\nx").data

theorem claim_c10_witness :
    searchIns matchGamesTable c10Doc ≠ none ∧ gamesParsedRows c10Doc = [] ∧
    ((fixMatchGames c10Doc).writes = [] ∧
      (fixMatchGames c10Doc).stdout = ["No rows matched the pattern"]) :=
  ⟨by decide, by decide, (claim_c10 c10Doc).2 (by decide) (by decide)⟩

/-- Claim C9: in `fix_dump.py` the `league_operators` migration rewrites only
the INSERT header: `fix_league_operator_values` is the identity on its match
(and is never invoked), the old header names `contact_disclaimer_acknowledged`
while the new one does not, and on a document `loHeaderOld ++ v` whose Values
text `v` contains none of the replaced tokens, the whole pipeline yields
`loHeaderNew ++ v` — every VALUES row byte-for-byte unchanged,
`contact_disclaimer_acknowledged` values included. -/
theorem claim_c9 :
    (∀ m : List Char, fix_league_operator_values m = m) ∧
    occCount cdaTok loHeaderOld = 1 ∧ occCount cdaTok loHeaderNew = 0 ∧
    ∀ v : List Char, occCount loHeaderOld v = 0 →
      occCount cboiTok (loHeaderNew ++ v) = 0 →
      occCount opIdTok (loHeaderNew ++ v) = 0 →
      occCount aoiTok (loHeaderNew ++ v) = 0 →
      fixDumpContent (loHeaderOld ++ v) = loHeaderNew ++ v := by
  refine ⟨fun m => rfl, by decide, by decide, ?_⟩
  intro v h0 h1 h2 h3
  unfold fixDumpContent
  have e1 : pyReplace loHeaderOld loHeaderNew (loHeaderOld ++ v) =
      loHeaderNew ++ v := by
    rw [pyReplace_head (by decide) (litPref_append_self loHeaderOld v),
      List.drop_left, occCount_zero_replace h0]
  rw [e1, occCount_zero_replace h1, occCount_zero_replace h2,
    occCount_zero_replace h3]

/-- A sample `league_operators` VALUES row free of all replaced tokens. -/
def c9Rows : List Char :=
  ("\n\t('u1', 'm1', 'Org', 'Addr', 'City', 'ST', '12345', true, 'e@x', 'v', 'p', 'v2', NULL, NULL, NULL, NULL, NULL, NULL, NULL, false, '2025-01-01', '2025-01-01', true);").data

theorem claim_c9_witness :
    occCount loHeaderOld c9Rows = 0 ∧
    occCount cboiTok (loHeaderNew ++ c9Rows) = 0 ∧
    occCount opIdTok (loHeaderNew ++ c9Rows) = 0 ∧
    occCount aoiTok (loHeaderNew ++ c9Rows) = 0 ∧
    fixDumpContent (loHeaderOld ++ c9Rows) = loHeaderNew ++ c9Rows :=
  ⟨by decide, by decide, by decide, by decide,
    claim_c9.2.2.2 c9Rows (by decide) (by decide) (by decide) (by decide)⟩

/-- First line of the segment refuting C3: a row truncated in its
`confirmed_at` field (the rest of the field continues on the next line). -/
def c3Line1 : List Char :=
  ("\t('a', 'b', 7, c, d, e, f, 'g', 'h', true, true, true, true, NU").data

/-- Second line of the segment refuting C3. -/
def c3Line2 : List Char := ("\tLL, true, 'x', 'y');").data

/-- Claim C3, counterexample: in the two-line segment `c3Line1 ++ \n ++
c3Line2`, neither input line matches `row_pattern` on its own (the first is
truncated, the second does not start with `\t(`), yet the scan emits one
output row, because `[^,]+` also matches across the newline; the emitted row
even contains the text of both non-matching lines.  So "emitted row count =
number of grammar-conforming input rows" (1 ≠ 0) and "a non-matching row is
absent from the result" both fail. -/
theorem claim_c3_counterexample :
    rewriteRows c3Line1 = [] ∧ rewriteRows c3Line2 = [] ∧
    (rewriteRows (c3Line1 ++ nl :: c3Line2)).length = 1 ∧
    findIterRows (c3Line1 ++ nl :: c3Line2) =
      [⟨['a'], ['b'], ['7'], ['c'], ['d'], ['e'], ['f'], ['g'], ['h'], trueL,
        trueL, trueL, trueL, ['N', 'U', nl, tab, 'L', 'L'], trueL, ['x'],
        ['y'], semi⟩] := by decide

/-- Claim C3 (amended): for a Values segment assembled from grammar-conforming
row texts and tab-free filler, the scan emits exactly the segment's rows (in
order, so the emitted count equals the number of conforming rows and filler
contributes nothing); and whenever the `match_games` statement is found and at
least one row matches, the emitted row count is reported on standard output. -/
theorem claim_c3 (ps : List SegPart) (h : segOk ps = true)
    (content : List Char) :
    findIterRows (segText ps) = segRows ps ∧
    (rewriteRows (segText ps)).length = (segRows ps).length ∧
    (searchIns matchGamesTable content ≠ none →
      gamesParsedRows content ≠ [] →
      (fixMatchGames content).stdout =
        ["Created restore_match_games.sql with " ++
          Nat.repr (gamesParsedRows content).length ++ " rows"]) := by
  refine ⟨findIterRows_segText h, ?_, ?_⟩
  · unfold rewriteRows
    rw [findIterRows_segText h, List.length_map]
  · rcases hs : searchIns matchGamesTable content with _ | block
    · intro hne
      exact absurd rfl hne
    · rcases hb : findIterRows (gamesValuesPart block) with _ | ⟨r0, rt⟩
      · intro _ habs
        simp only [gamesParsedRows, hs, hb] at habs
        exact absurd habs (by simp)
      · intro _ _
        simp only [fixMatchGames, gamesParsedRows, hs, hb, List.length_map]

/-- A well-formed two-row segment with filler. -/
def c3Parts : List SegPart :=
  [SegPart.filler (("z").data), SegPart.row wRow,
   SegPart.filler ([nl]), SegPart.row wRow]

/-- A document whose `match_games` Values segment contains one
grammar-conforming row (preceded by filler so that `.strip()` does not eat
the row's leading tab). -/
def c3Doc : List Char :=
  ("INSERT INTO \"public\".\"match_games\" (\"id\") VALUES\nz\n").data ++
    oldRowText wRow

theorem claim_c3_witness :
    segOk c3Parts = true ∧ findIterRows (segText c3Parts) = segRows c3Parts ∧
    searchIns matchGamesTable c3Doc ≠ none ∧ gamesParsedRows c3Doc ≠ [] ∧
    (fixMatchGames c3Doc).stdout =
      ["Created restore_match_games.sql with " ++
        Nat.repr (gamesParsedRows c3Doc).length ++ " rows"] :=
  ⟨by decide, (claim_c3 c3Parts (by decide) c3Doc).1, by decide, by decide,
    (claim_c3 c3Parts (by decide) c3Doc).2.2 (by decide) (by decide)⟩

end SupabaseFix

namespace SupabaseFix

/-! The New Schema row grammar, modelled from the spec's words for the
round-trip claim: a 16-field tuple whose fields are quoted strings, bare
integers, bare booleans, or bare NULL, whose final field is the constant
`'eight_ball'`, and which keeps its `,` or `;` terminator. -/

def nullL : List Char := ['N', 'U', 'L', 'L']

/-- Holds when `l` consists of a non-empty quote-free run followed by a closing quote. -/
def quotedTail : List Char → Bool
  | [] => false
  | [_] => false
  | [d, e] => (d != qc) && (e == qc)
  | d :: rest => (d != qc) && quotedTail rest

/-- A single-quoted SQL string literal with non-empty, quote-free content. -/
def quotedLit (f : List Char) : Bool :=
  match f with
  | c :: rest => (c == qc) && quotedTail rest
  | [] => false

/-- One SQL literal of the New Schema grammar: quoted string, bare integer,
bare boolean, or bare NULL. -/
def isLit (f : List Char) : Bool :=
  quotedLit f || (!f.isEmpty && f.all Char.isDigit) || f == falseL ||
    f == trueL || f == nullL

/-- Parse one New Schema literal (dispatch on the first character; the
alternatives start with disjoint characters). -/
def pNewLit (s : List Char) : Option (List Char × List Char) :=
  match s with
  | [] => none
  | c :: r =>
    if c == qc then
      match pTake1 notQc r with
      | none => none
      | some (inner, r2) =>
        match r2 with
        | d :: r3 => if d == qc then some (qc :: (inner ++ [qc]), r3) else none
        | [] => none
    else if c.isDigit then
      match pTake1 Char.isDigit (c :: r) with
      | none => none
      | some (ds, r2) => some (ds, r2)
    else if c == 'f' then
      match pLit falseL (c :: r) with
      | none => none
      | some r2 => some (falseL, r2)
    else if c == 't' then
      match pLit trueL (c :: r) with
      | none => none
      | some r2 => some (trueL, r2)
    else if c == 'N' then
      match pLit nullL (c :: r) with
      | none => none
      | some r2 => some (nullL, r2)
    else none

/-- One New Schema literal followed by the `', '` field separator. -/
def pNewField (s : List Char) : Option (List Char × List Char) :=
  match pNewLit s with
  | none => none
  | some (f, r) =>
    match pLit sepL r with
    | none => none
    | some r2 => some (f, r2)

/-- Modelled from the spec (§8 round-trip property): the New Schema row
grammar — `\t(` then sixteen `', '`-separated SQL literals of which the
sixteenth is the constant `'eight_ball'`, then `)` and a `,` or `;`
terminator. -/
def newSchemaRowOk (s : List Char) : Bool :=
  match pLit [tab, lpar] s with
  | none => false
  | some s1 =>
  match pNewField s1 with
  | none => false
  | some (_, s2) =>
  match pNewField s2 with
  | none => false
  | some (_, s3) =>
  match pNewField s3 with
  | none => false
  | some (_, s4) =>
  match pNewField s4 with
  | none => false
  | some (_, s5) =>
  match pNewField s5 with
  | none => false
  | some (_, s6) =>
  match pNewField s6 with
  | none => false
  | some (_, s7) =>
  match pNewField s7 with
  | none => false
  | some (_, s8) =>
  match pNewField s8 with
  | none => false
  | some (_, s9) =>
  match pNewField s9 with
  | none => false
  | some (_, s10) =>
  match pNewField s10 with
  | none => false
  | some (_, s11) =>
  match pNewField s11 with
  | none => false
  | some (_, s12) =>
  match pNewField s12 with
  | none => false
  | some (_, s13) =>
  match pNewField s13 with
  | none => false
  | some (_, s14) =>
  match pNewField s14 with
  | none => false
  | some (_, s15) =>
  match pNewField s15 with
  | none => false
  | some (_, s16) =>
  match pNewLit s16 with
  | none => false
  | some (f16, r) =>
    (f16 == gameTypeLit) && (r == [rpar, comma] || r == [rpar, semi])

theorem quotedTail_decomp : ∀ {l : List Char}, quotedTail l = true →
    ∃ inner, l = inner ++ [qc] ∧ inner.isEmpty = false ∧
      inner.all notQc = true := by
  intro l
  induction l with
  | nil => intro h; simp [quotedTail] at h
  | cons d tail ih =>
    intro h
    cases tail with
    | nil => simp [quotedTail] at h
    | cons e rest =>
      cases rest with
      | nil =>
        simp only [quotedTail, Bool.and_eq_true] at h
        refine ⟨[d], ?_, rfl, ?_⟩
        · simp [(eq_of_beq h.2 : e = qc)]
        · simp only [List.all_cons, List.all_nil, Bool.and_true]
          exact h.1
      | cons f rest2 =>
        simp only [quotedTail, Bool.and_eq_true] at h
        obtain ⟨inner, heq, hne, hall⟩ := ih h.2
        refine ⟨d :: inner, by simp [heq], rfl, ?_⟩
        simp only [List.all_cons, Bool.and_eq_true]
        exact ⟨h.1, hall⟩

theorem pNewLit_q {a : List Char} (hne : a.isEmpty = false)
    (ha : a.all notQc = true) (X : List Char) :
    pNewLit (q a ++ X) = some (q a, X) := by
  show pNewLit (qc :: (a ++ [qc]) ++ X) = some (q a, X)
  simp only [List.cons_append, List.append_assoc, List.singleton_append]
  simp only [pNewLit, beq_self_eq_true, if_true,
    pTake1_spec hne ha (show notQc qc = false by decide)]
  rfl

theorem digit_ne_qc {ch : Char} (h : ch.isDigit = true) :
    (ch == qc) = false := by
  cases hc : (ch == qc) with
  | false => rfl
  | true =>
    have hq : ch = qc := eq_of_beq hc
    subst hq
    exact absurd h (by decide)

theorem pNewLit_digits {a : List Char} (hne : a.isEmpty = false)
    (ha : a.all Char.isDigit = true) (X : List Char) :
    pNewLit (a ++ comma :: X) = some (a, comma :: X) := by
  cases a with
  | nil => simp at hne
  | cons c t =>
    simp only [List.all_cons, Bool.and_eq_true] at ha
    have h1 : (c == qc) = false := digit_ne_qc ha.1
    have h2 : (c == 'f') = false := by
      cases hf : (c == 'f') with
      | false => rfl
      | true =>
        have : c = 'f' := eq_of_beq hf
        subst this
        exact absurd ha.1 (by decide)
    simp only [List.cons_append, pNewLit, h1, Bool.false_eq_true, if_false,
      ha.1, if_true]
    have := @pTake1_spec Char.isDigit (c :: t) comma X (by simp)
      (by simp [List.all_cons, ha.1, ha.2]) (by decide)
    simp only [List.cons_append] at this
    simp only [this]

theorem pNewLit_false (X : List Char) :
    pNewLit (falseL ++ X) = some (falseL, X) := rfl

theorem pNewLit_true (X : List Char) :
    pNewLit (trueL ++ X) = some (trueL, X) := rfl

theorem pNewLit_null (X : List Char) :
    pNewLit (nullL ++ X) = some (nullL, X) := rfl

theorem pNewLit_gameType (X : List Char) :
    pNewLit (gameTypeLit ++ X) = some (gameTypeLit, X) := rfl

/-- Any New Schema literal followed by a comma parses as itself. -/
theorem pNewLit_isLit {f : List Char} (hf : isLit f = true) (X : List Char) :
    pNewLit (f ++ comma :: X) = some (f, comma :: X) := by
  simp only [isLit, Bool.or_eq_true, Bool.and_eq_true, Bool.not_eq_true',
    beq_iff_eq] at hf
  rcases hf with ((((hq | hd) | rfl) | rfl) | rfl)
  · unfold quotedLit at hq
    cases f with
    | nil => simp at hq
    | cons c rest =>
      simp only [Bool.and_eq_true] at hq
      have hc : c = qc := eq_of_beq hq.1
      subst hc
      obtain ⟨inner, heq, hne, hall⟩ := quotedTail_decomp hq.2
      subst heq
      have := pNewLit_q hne hall (comma :: X)
      simpa [q] using this
  · exact pNewLit_digits hd.1 hd.2 X
  · exact pNewLit_false _
  · exact pNewLit_true _
  · exact pNewLit_null _

theorem pNewField_q {a : List Char} (hne : a.isEmpty = false)
    (ha : a.all notQc = true) (X : List Char) :
    pNewField (q a ++ comma :: space :: X) = some (q a, X) := by
  simp only [pNewField, pNewLit_q hne ha, pLit_sepL]

theorem pNewField_digits {a : List Char} (hne : a.isEmpty = false)
    (ha : a.all Char.isDigit = true) (X : List Char) :
    pNewField (a ++ comma :: space :: X) = some (a, X) := by
  simp only [pNewField, pNewLit_digits hne ha, pLit_sepL]

theorem pNewField_bool {b : List Char}
    (hb : (b == falseL || b == trueL) = true) (X : List Char) :
    pNewField (b ++ comma :: space :: X) = some (b, X) := by
  rcases bool_lit_cases hb with rfl | rfl <;> rfl

theorem pNewField_isLit {f : List Char} (hf : isLit f = true)
    (X : List Char) : pNewField (f ++ comma :: space :: X) = some (f, X) := by
  simp only [pNewField, pNewLit_isLit hf, pLit_sepL]

/-- Claim C5 (amended): for every input row accepted by the Old Schema
positional grammar whose free-form `[^,]+` fields (positions 4–7 and 14:
the player/team ids and `confirmed_at`) are themselves SQL literals, the
rewritten output row parses against the New Schema grammar. -/
theorem claim_c5 (r : MatchRow) (hr : rowOk r = true)
    (h1 : isLit r.home_player_id = true) (h2 : isLit r.away_player_id = true)
    (h3 : isLit r.winner_team_id = true) (h4 : isLit r.winner_player_id = true)
    (h5 : isLit r.confirmed_at = true) :
    newSchemaRowOk (newRow r) = true := by
  simp only [rowOk, Bool.and_eq_true, Bool.not_eq_true'] at hr
  obtain ⟨⟨⟨⟨⟨⟨⟨⟨⟨⟨⟨⟨⟨⟨⟨⟨⟨⟨hid1, hid2⟩, hmi1, hmi2⟩, hgn1, hgn2⟩, hhp1, hhp2⟩,
    hap1, hap2⟩, hwt1, hwt2⟩, hwp1, hwp2⟩, hha1, hha2⟩, haa1, haa2⟩, hbr⟩,
    hgb⟩, hch⟩, hca⟩, hcat1, hcat2⟩, htb⟩, hcr1, hcr2⟩, hup1, hup2⟩,
    hterm⟩ := hr
  have ht : r.term = comma ∨ r.term = semi := by
    simpa [Bool.or_eq_true, beq_iff_eq] using hterm
  simp only [newRow, sepL, List.cons_append, List.append_assoc,
    List.nil_append]
  simp only [newSchemaRowOk, pLit_tl, pNewField_q hid1 hid2,
    pNewField_q hmi1 hmi2, pNewField_digits hgn1 hgn2, pNewField_isLit h1,
    pNewField_isLit h2, pNewField_isLit h3, pNewField_isLit h4,
    pNewField_q hha1 hha2, pNewField_q haa1 haa2, pNewField_bool hbr,
    pNewField_bool hgb, pNewField_isLit h5, pNewField_bool htb,
    pNewField_q hcr1 hcr2, pNewField_q hup1 hup2, pNewLit_gameType]
  rcases ht with h | h <;> rw [h] <;> decide

/-- A row accepted by the Old Schema grammar whose `home_player_id` field is
the bare junk `xyz` (any non-empty comma-free text is accepted there). -/
def c5BadRow : MatchRow :=
  ⟨("a1").data, ("m1").data, ("2").data, ("xyz").data, ("'p2'").data,
    ("'t1'").data, ("'p1'").data, ("break").data, ("rack").data, falseL,
    falseL, trueL, trueL, ("NULL").data, falseL, ("2025-01-01").data,
    ("2025-01-01").data, comma⟩

/-- Claim C5, counterexample: `row_pattern` accepts a row whose
`home_player_id` field is the bare text `xyz` (the `[^,]+` classes accept any
non-empty comma-free text), and the rewriter copies it verbatim, so the
output row is not syntactically valid for the New Schema: the round-trip
fails for this grammar-accepted input row. -/
theorem claim_c5_counterexample :
    rowOk c5BadRow = true ∧
    rewriteRows (oldRowText c5BadRow) = [newRow c5BadRow] ∧
    newSchemaRowOk (newRow c5BadRow) = false := by decide

theorem claim_c5_witness :
    (rowOk wRow = true ∧ isLit wRow.home_player_id = true ∧
      isLit wRow.away_player_id = true ∧ isLit wRow.winner_team_id = true ∧
      isLit wRow.winner_player_id = true ∧ isLit wRow.confirmed_at = true) ∧
    newSchemaRowOk (newRow wRow) = true :=
  ⟨⟨by decide, by decide, by decide, by decide, by decide, by decide⟩,
    claim_c5 wRow (by decide) (by decide) (by decide) (by decide) (by decide)
      (by decide)⟩

end SupabaseFix

namespace SupabaseFix

/-! Occurrence counting infrastructure for the `"operator_id"` rename step. -/

/-- Occurrences of `pat` starting at the first `x.length` positions of
`x ++ y`. -/
def bCount (pat : List Char) : List Char → List Char → Nat
  | [], _ => 0
  | c :: x, y => (if litPref pat (c :: (x ++ y)) then 1 else 0) + bCount pat x y

/-- No two occurrences of `pat` in `s` overlap (positions up to `s.length`
suffice; beyond the end `pat` cannot occur). -/
def overlapFreeUpTo (pat s : List Char) : Prop :=
  ∀ p, p < s.length + 1 → ∀ q, q < s.length + 1 →
    litPref pat (s.drop p) = true → litPref pat (s.drop q) = true →
    p < q → p + pat.length ≤ q

def overlapFree (pat s : List Char) : Prop :=
  ∀ p q : Nat, litPref pat (s.drop p) = true →
    litPref pat (s.drop q) = true → p < q → p + pat.length ≤ q

instance instDecidableOverlapFreeUpTo (pat s : List Char) :
    Decidable (overlapFreeUpTo pat s) :=
  inferInstanceAs (Decidable (∀ p, p < s.length + 1 → ∀ q, q < s.length + 1 →
    litPref pat (s.drop p) = true → litPref pat (s.drop q) = true →
    p < q → p + pat.length ≤ q))

theorem litPref_nil_right {a : Char} {as : List Char} :
    litPref (a :: as) [] = false := rfl

theorem overlapFree_of_upTo {pat s : List Char} (hpat : pat ≠ [])
    (h : overlapFreeUpTo pat s) : overlapFree pat s := by
  intro p q h1 h2 hlt
  by_cases hq : q < s.length + 1
  · by_cases hp : p < s.length + 1
    · exact h p hp q hq h1 h2 hlt
    · exfalso
      have hnil : s.drop p = [] := List.drop_eq_nil_of_le (by omega)
      rw [hnil] at h1
      cases pat with
      | nil => exact hpat rfl
      | cons a as => exact Bool.noConfusion (litPref_nil_right.symm.trans h1)
  · exfalso
    have hnil : s.drop q = [] := List.drop_eq_nil_of_le (by omega)
    rw [hnil] at h2
    cases pat with
    | nil => exact hpat rfl
    | cons a as => exact Bool.noConfusion (litPref_nil_right.symm.trans h2)

theorem occCount_zero_iff {pat : List Char} (hne : pat ≠ []) :
    ∀ {s : List Char}, occCount pat s = 0 ↔
      ∀ p, litPref pat (s.drop p) = false := by
  intro s
  induction s with
  | nil =>
    constructor
    · intro _ p
      rw [List.drop_nil]
      cases pat with
      | nil => exact absurd rfl hne
      | cons a as => rfl
    · intro _
      cases pat with
      | nil => exact absurd rfl hne
      | cons a as => rfl
  | cons c r ih =>
    simp only [occCount]
    constructor
    · intro h p
      have h0 : litPref pat (c :: r) = false := by
        cases hl : litPref pat (c :: r) with
        | false => rfl
        | true => rw [hl] at h; simp at h
      have hr : occCount pat r = 0 := by
        rw [h0] at h
        simpa using h
      cases p with
      | zero => simpa using h0
      | succ p' => simpa [List.drop_succ_cons] using (ih.mp hr) p'
    · intro h
      have h0 : litPref pat (c :: r) = false := by simpa using h 0
      have hr : ∀ p, litPref pat (r.drop p) = false := by
        intro p
        simpa [List.drop_succ_cons] using h (p + 1)
      rw [h0, ih.mpr hr]
      simp

theorem occCount_append (pat : List Char) :
    ∀ (x y : List Char),
      occCount pat (x ++ y) = bCount pat x y + occCount pat y := by
  intro x
  induction x with
  | nil => intro y; simp [bCount]
  | cons c x' ih =>
    intro y
    simp only [List.cons_append, occCount, bCount, List.append_eq, ih]
    omega

theorem bCount_eq_zero {pat : List Char} :
    ∀ {x y : List Char},
      (∀ p, p < x.length → litPref pat ((x ++ y).drop p) = false) →
      bCount pat x y = 0 := by
  intro x
  induction x with
  | nil => intro y _; rfl
  | cons c x' ih =>
    intro y h
    have h0 : litPref pat (c :: (x' ++ y)) = false := by
      simpa [List.cons_append] using h 0 (by simp)
    simp only [bCount, h0, if_false, Bool.false_eq_true, Nat.zero_add]
    apply ih
    intro p hp
    simpa [List.cons_append, List.drop_succ_cons] using
      h (p + 1) (by simpa using Nat.succ_lt_succ hp)

theorem litPref_decomp :
    ∀ {pat s : List Char}, litPref pat s = true →
      s = pat ++ s.drop pat.length := by
  intro pat
  induction pat with
  | nil => intro s _; simp
  | cons c cs ih =>
    intro s h
    cases s with
    | nil => exact Bool.noConfusion (litPref_nil_right.symm.trans h)
    | cons b bs =>
      simp only [litPref, Bool.and_eq_true] at h
      have hb : c = b := eq_of_beq h.1
      subst hb
      have := ih h.2
      simpa [List.cons_append, List.drop_succ_cons] using congrArg (c :: ·) this

theorem litPref_append_split :
    ∀ {x pat y : List Char}, litPref pat (x ++ y) = true →
      x.length ≤ pat.length →
      x = pat.take x.length ∧ litPref (pat.drop x.length) y = true := by
  intro x
  induction x with
  | nil => intro pat y h _; exact ⟨by simp, by simpa using h⟩
  | cons c x' ih =>
    intro pat y h hlen
    cases pat with
    | nil => simp at hlen
    | cons p0 pat' =>
      simp only [List.cons_append, litPref, Bool.and_eq_true] at h
      have hc : p0 = c := eq_of_beq h.1
      subst hc
      simp only [List.length_cons] at hlen
      obtain ⟨hx, hrest⟩ := ih h.2 (by omega)
      refine ⟨?_, ?_⟩
      · simp only [List.length_cons, List.take_succ_cons]
        rw [← hx]
      · simpa [List.length_cons, List.drop_succ_cons] using hrest

theorem litPref_append_trunc :
    ∀ {pat x : List Char} (y z : List Char), pat.length ≤ x.length →
      litPref pat (x ++ y) = litPref pat (x ++ z) := by
  intro pat
  induction pat with
  | nil => intro x y z _; rfl
  | cons c pat' ih =>
    intro x y z hlen
    cases x with
    | nil => simp at hlen
    | cons x0 x' =>
      simp only [List.cons_append, litPref]
      simp only [List.length_cons] at hlen
      rw [ih y z (by omega)]

/-- Intercalate with a separator (the decomposition witnessing that only the
occurrences themselves are rewritten). -/
def joinWith (sep : List Char) : List (List Char) → List Char
  | [] => []
  | [x] => x
  | x :: y :: t => x ++ (sep ++ joinWith sep (y :: t))

theorem joinWith_cons {sep a : List Char} {parts : List (List Char)}
    (h : parts ≠ []) :
    joinWith sep (a :: parts) = a ++ (sep ++ joinWith sep parts) := by
  cases parts with
  | nil => exact absurd rfl h
  | cons y t => rfl

end SupabaseFix

namespace SupabaseFix

/-! Junction analysis for the `"operator_id"` → `"organization_id"` rename:
the only self-overlap of either token is the shared `"` (shift 12 resp. 16),
so every cross-boundary occurrence in the replaced text maps back to an
occurrence in the original text. -/

/-- The suffix `operator_id"` — the old token minus its opening quote. -/
def opTail : List Char :=
  ['o', 'p', 'e', 'r', 'a', 't', 'o', 'r', '_', 'i', 'd', '"']

/-- The suffix `organization_id"` — the new token minus its opening quote. -/
def orgTail : List Char :=
  ['o', 'r', 'g', 'a', 'n', 'i', 'z', 'a', 't', 'i', 'o', 'n', '_', 'i', 'd',
   '"']

theorem opIdTok_chars : opIdTok = '"' :: opTail := by decide

theorem orgIdTok_chars : orgIdTok = '"' :: orgTail := by decide

theorem opIdTok_len : opIdTok.length = 13 := by decide

theorem orgIdTok_len : orgIdTok.length = 17 := by decide

/-- The rename step of `fix_dump.py`:
`content.replace('"operator_id"', '"organization_id"')`. -/
def renameStep (s : List Char) : List Char := pyReplace opIdTok orgIdTok s

/-- An occurrence of the old token starting strictly inside `a` in
`a ++ new ++ Y` maps to one at the same position in `a ++ old ++ Z`. -/
theorem junction_old (Z : List Char) {a Y : List Char} {p : Nat}
    (hp : p < a.length)
    (h : litPref opIdTok ((a ++ (orgIdTok ++ Y)).drop p) = true) :
    litPref opIdTok ((a ++ (opIdTok ++ Z)).drop p) = true := by
  have hple : p ≤ a.length := Nat.le_of_lt hp
  rw [List.drop_append_of_le_length hple] at h
  rw [List.drop_append_of_le_length hple]
  have hxlen : (a.drop p).length = a.length - p := List.length_drop _ _
  by_cases hbig : 13 ≤ (a.drop p).length
  · rw [litPref_append_trunc (orgIdTok ++ Y) (opIdTok ++ Z)
      (by rw [opIdTok_len]; omega)] at h
    exact h
  · push_neg at hbig
    obtain ⟨hxeq, hrest⟩ := litPref_append_split h (by rw [opIdTok_len]; omega)
    rw [hxeq]
    set d := (a.drop p).length with hdd
    have hd1 : 1 ≤ d := by omega
    have hd2 : d ≤ 12 := by omega
    interval_cases d
    · exact Bool.noConfusion
        ((rfl : litPref (opIdTok.drop 1) (orgIdTok ++ Y) = false).symm.trans hrest)
    · exact Bool.noConfusion
        ((rfl : litPref (opIdTok.drop 2) (orgIdTok ++ Y) = false).symm.trans hrest)
    · exact Bool.noConfusion
        ((rfl : litPref (opIdTok.drop 3) (orgIdTok ++ Y) = false).symm.trans hrest)
    · exact Bool.noConfusion
        ((rfl : litPref (opIdTok.drop 4) (orgIdTok ++ Y) = false).symm.trans hrest)
    · exact Bool.noConfusion
        ((rfl : litPref (opIdTok.drop 5) (orgIdTok ++ Y) = false).symm.trans hrest)
    · exact Bool.noConfusion
        ((rfl : litPref (opIdTok.drop 6) (orgIdTok ++ Y) = false).symm.trans hrest)
    · exact Bool.noConfusion
        ((rfl : litPref (opIdTok.drop 7) (orgIdTok ++ Y) = false).symm.trans hrest)
    · exact Bool.noConfusion
        ((rfl : litPref (opIdTok.drop 8) (orgIdTok ++ Y) = false).symm.trans hrest)
    · exact Bool.noConfusion
        ((rfl : litPref (opIdTok.drop 9) (orgIdTok ++ Y) = false).symm.trans hrest)
    · exact Bool.noConfusion
        ((rfl : litPref (opIdTok.drop 10) (orgIdTok ++ Y) = false).symm.trans hrest)
    · exact Bool.noConfusion
        ((rfl : litPref (opIdTok.drop 11) (orgIdTok ++ Y) = false).symm.trans hrest)
    · exact (rfl :
        litPref opIdTok (opIdTok.take 12 ++ (opIdTok ++ Z)) = true)

/-- Likewise for the new token. -/
theorem junction_new (Z : List Char) {a Y : List Char} {p : Nat}
    (hp : p < a.length)
    (h : litPref orgIdTok ((a ++ (orgIdTok ++ Y)).drop p) = true) :
    litPref orgIdTok ((a ++ (opIdTok ++ Z)).drop p) = true := by
  have hple : p ≤ a.length := Nat.le_of_lt hp
  rw [List.drop_append_of_le_length hple] at h
  rw [List.drop_append_of_le_length hple]
  have hxlen : (a.drop p).length = a.length - p := List.length_drop _ _
  by_cases hbig : 17 ≤ (a.drop p).length
  · rw [litPref_append_trunc (orgIdTok ++ Y) (opIdTok ++ Z)
      (by rw [orgIdTok_len]; omega)] at h
    exact h
  · push_neg at hbig
    obtain ⟨hxeq, hrest⟩ := litPref_append_split h (by rw [orgIdTok_len]; omega)
    rw [hxeq]
    set d := (a.drop p).length with hdd
    have hd1 : 1 ≤ d := by omega
    have hd2 : d ≤ 16 := by omega
    interval_cases d
    · exact Bool.noConfusion
        ((rfl : litPref (orgIdTok.drop 1) (orgIdTok ++ Y) = false).symm.trans hrest)
    · exact Bool.noConfusion
        ((rfl : litPref (orgIdTok.drop 2) (orgIdTok ++ Y) = false).symm.trans hrest)
    · exact Bool.noConfusion
        ((rfl : litPref (orgIdTok.drop 3) (orgIdTok ++ Y) = false).symm.trans hrest)
    · exact Bool.noConfusion
        ((rfl : litPref (orgIdTok.drop 4) (orgIdTok ++ Y) = false).symm.trans hrest)
    · exact Bool.noConfusion
        ((rfl : litPref (orgIdTok.drop 5) (orgIdTok ++ Y) = false).symm.trans hrest)
    · exact Bool.noConfusion
        ((rfl : litPref (orgIdTok.drop 6) (orgIdTok ++ Y) = false).symm.trans hrest)
    · exact Bool.noConfusion
        ((rfl : litPref (orgIdTok.drop 7) (orgIdTok ++ Y) = false).symm.trans hrest)
    · exact Bool.noConfusion
        ((rfl : litPref (orgIdTok.drop 8) (orgIdTok ++ Y) = false).symm.trans hrest)
    · exact Bool.noConfusion
        ((rfl : litPref (orgIdTok.drop 9) (orgIdTok ++ Y) = false).symm.trans hrest)
    · exact Bool.noConfusion
        ((rfl : litPref (orgIdTok.drop 10) (orgIdTok ++ Y) = false).symm.trans hrest)
    · exact Bool.noConfusion
        ((rfl : litPref (orgIdTok.drop 11) (orgIdTok ++ Y) = false).symm.trans hrest)
    · exact Bool.noConfusion
        ((rfl : litPref (orgIdTok.drop 12) (orgIdTok ++ Y) = false).symm.trans hrest)
    · exact Bool.noConfusion
        ((rfl : litPref (orgIdTok.drop 13) (orgIdTok ++ Y) = false).symm.trans hrest)
    · exact Bool.noConfusion
        ((rfl : litPref (orgIdTok.drop 14) (orgIdTok ++ Y) = false).symm.trans hrest)
    · exact Bool.noConfusion
        ((rfl : litPref (orgIdTok.drop 15) (orgIdTok ++ Y) = false).symm.trans hrest)
    · exact (rfl :
        litPref orgIdTok (orgIdTok.take 16 ++ (opIdTok ++ Z)) = true)

/-- If `operator_id"` is a prefix of `a ++ new ++ Y`, it is also a prefix of
`a ++ old ++ Z`. -/
theorem tail_old {a Y Z : List Char}
    (h : litPref opTail (a ++ (orgIdTok ++ Y)) = true) :
    litPref opTail (a ++ (opIdTok ++ Z)) = true := by
  by_cases hbig : 12 ≤ a.length
  · rw [litPref_append_trunc (orgIdTok ++ Y) (opIdTok ++ Z)
      (by simp only [opTail]; simp; omega)] at h
    exact h
  · push_neg at hbig
    obtain ⟨haeq, hrest⟩ := litPref_append_split h
      (by simp only [opTail]; simp; omega)
    rw [haeq]
    set d := a.length with hdd
    have hd2 : d ≤ 11 := by omega
    interval_cases d
    · exact Bool.noConfusion
        ((rfl : litPref (opTail.drop 0) (orgIdTok ++ Y) = false).symm.trans hrest)
    · exact Bool.noConfusion
        ((rfl : litPref (opTail.drop 1) (orgIdTok ++ Y) = false).symm.trans hrest)
    · exact Bool.noConfusion
        ((rfl : litPref (opTail.drop 2) (orgIdTok ++ Y) = false).symm.trans hrest)
    · exact Bool.noConfusion
        ((rfl : litPref (opTail.drop 3) (orgIdTok ++ Y) = false).symm.trans hrest)
    · exact Bool.noConfusion
        ((rfl : litPref (opTail.drop 4) (orgIdTok ++ Y) = false).symm.trans hrest)
    · exact Bool.noConfusion
        ((rfl : litPref (opTail.drop 5) (orgIdTok ++ Y) = false).symm.trans hrest)
    · exact Bool.noConfusion
        ((rfl : litPref (opTail.drop 6) (orgIdTok ++ Y) = false).symm.trans hrest)
    · exact Bool.noConfusion
        ((rfl : litPref (opTail.drop 7) (orgIdTok ++ Y) = false).symm.trans hrest)
    · exact Bool.noConfusion
        ((rfl : litPref (opTail.drop 8) (orgIdTok ++ Y) = false).symm.trans hrest)
    · exact Bool.noConfusion
        ((rfl : litPref (opTail.drop 9) (orgIdTok ++ Y) = false).symm.trans hrest)
    · exact Bool.noConfusion
        ((rfl : litPref (opTail.drop 10) (orgIdTok ++ Y) = false).symm.trans hrest)
    · exact (rfl :
        litPref opTail (opTail.take 11 ++ (opIdTok ++ Z)) = true)

/-- If `organization_id"` is a prefix of `a ++ new ++ Y`, it is also a prefix
of `a ++ old ++ Z`. -/
theorem tail_new {a Y Z : List Char}
    (h : litPref orgTail (a ++ (orgIdTok ++ Y)) = true) :
    litPref orgTail (a ++ (opIdTok ++ Z)) = true := by
  by_cases hbig : 16 ≤ a.length
  · rw [litPref_append_trunc (orgIdTok ++ Y) (opIdTok ++ Z)
      (by simp only [orgTail]; simp; omega)] at h
    exact h
  · push_neg at hbig
    obtain ⟨haeq, hrest⟩ := litPref_append_split h
      (by simp only [orgTail]; simp; omega)
    rw [haeq]
    set d := a.length with hdd
    have hd2 : d ≤ 15 := by omega
    interval_cases d
    · exact Bool.noConfusion
        ((rfl : litPref (orgTail.drop 0) (orgIdTok ++ Y) = false).symm.trans hrest)
    · exact Bool.noConfusion
        ((rfl : litPref (orgTail.drop 1) (orgIdTok ++ Y) = false).symm.trans hrest)
    · exact Bool.noConfusion
        ((rfl : litPref (orgTail.drop 2) (orgIdTok ++ Y) = false).symm.trans hrest)
    · exact Bool.noConfusion
        ((rfl : litPref (orgTail.drop 3) (orgIdTok ++ Y) = false).symm.trans hrest)
    · exact Bool.noConfusion
        ((rfl : litPref (orgTail.drop 4) (orgIdTok ++ Y) = false).symm.trans hrest)
    · exact Bool.noConfusion
        ((rfl : litPref (orgTail.drop 5) (orgIdTok ++ Y) = false).symm.trans hrest)
    · exact Bool.noConfusion
        ((rfl : litPref (orgTail.drop 6) (orgIdTok ++ Y) = false).symm.trans hrest)
    · exact Bool.noConfusion
        ((rfl : litPref (orgTail.drop 7) (orgIdTok ++ Y) = false).symm.trans hrest)
    · exact Bool.noConfusion
        ((rfl : litPref (orgTail.drop 8) (orgIdTok ++ Y) = false).symm.trans hrest)
    · exact Bool.noConfusion
        ((rfl : litPref (orgTail.drop 9) (orgIdTok ++ Y) = false).symm.trans hrest)
    · exact Bool.noConfusion
        ((rfl : litPref (orgTail.drop 10) (orgIdTok ++ Y) = false).symm.trans hrest)
    · exact Bool.noConfusion
        ((rfl : litPref (orgTail.drop 11) (orgIdTok ++ Y) = false).symm.trans hrest)
    · exact Bool.noConfusion
        ((rfl : litPref (orgTail.drop 12) (orgIdTok ++ Y) = false).symm.trans hrest)
    · exact Bool.noConfusion
        ((rfl : litPref (orgTail.drop 13) (orgIdTok ++ Y) = false).symm.trans hrest)
    · exact Bool.noConfusion
        ((rfl : litPref (orgTail.drop 14) (orgIdTok ++ Y) = false).symm.trans hrest)
    · exact (rfl :
        litPref orgTail (orgTail.take 15 ++ (opIdTok ++ Z)) = true)

end SupabaseFix

namespace SupabaseFix

/-- First-occurrence decomposition of a `pyReplace` scan: either there is no
occurrence and the text is unchanged, or the text splits at the first
occurrence. -/
theorem replace_decomp (old new : List Char) (hne : old ≠ []) :
    ∀ s : List Char,
      ((∀ p, litPref old (s.drop p) = false) ∧ pyReplace old new s = s) ∨
      ∃ a t, s = a ++ (old ++ t) ∧
        (∀ p, p < a.length → litPref old (s.drop p) = false) ∧
        pyReplace old new s = a ++ (new ++ pyReplace old new t) := by
  intro s
  induction s with
  | nil =>
    left
    constructor
    · intro p
      rw [List.drop_nil]
      cases old with
      | nil => exact absurd rfl hne
      | cons c cs => rfl
    · rfl
  | cons c r ih =>
    cases hp : litPref old (c :: r) with
    | true =>
      right
      have hdecomp := litPref_decomp hp
      refine ⟨[], (c :: r).drop old.length, by simpa using hdecomp, ?_, ?_⟩
      · intro p hp'
        simp at hp'
      · simpa using pyReplace_match hne hp
    | false =>
      rcases ih with ⟨hno, heq⟩ | ⟨a, t, hseq, hclean, heq⟩
      · left
        constructor
        · intro p
          cases p with
          | zero => simpa using hp
          | succ p' => simpa [List.drop_succ_cons] using hno p'
        · rw [pyReplace_nomatch hp, heq]
      · right
        refine ⟨c :: a, t, by simp [hseq], ?_, ?_⟩
        · intro p hp'
          cases p with
          | zero => simpa using hp
          | succ p' =>
            simp only [List.length_cons] at hp'
            simpa [List.drop_succ_cons] using hclean p' (by omega)
        · rw [pyReplace_nomatch hp, heq]
          simp [List.cons_append]

/-- The heart of the C7 analysis: on any text whose `"operator_id"`
occurrences are pairwise non-overlapping and which contains no
`"organization_id"`, the rename step removes every old occurrence, creates
exactly one new occurrence per old one, changes nothing else (the `parts`
decomposition), and creates no fresh `operator_id"`/`organization_id"`
prefix. -/
theorem rename_master :
    ∀ (n : Nat) (s : List Char), s.length ≤ n →
      overlapFree opIdTok s → occCount orgIdTok s = 0 →
      occCount opIdTok (renameStep s) = 0 ∧
      occCount orgIdTok (renameStep s) = occCount opIdTok s ∧
      (litPref opTail (renameStep s) = true → litPref opTail s = true) ∧
      (litPref orgTail (renameStep s) = true → litPref orgTail s = true) ∧
      ∃ parts : List (List Char), parts ≠ [] ∧
        parts.length = occCount opIdTok s + 1 ∧
        s = joinWith opIdTok parts ∧ renameStep s = joinWith orgIdTok parts := by
  intro n
  induction n with
  | zero =>
    intro s hlen _ _
    have hs : s = [] := List.eq_nil_of_length_eq_zero (Nat.le_zero.mp hlen)
    subst hs
    refine ⟨by decide, by decide, fun h => h, fun h => h,
      [[]], by simp, by decide, rfl, rfl⟩
  | succ n ih =>
    intro s hlen hov hnonew
    have hopne : opIdTok ≠ [] := by decide
    rcases replace_decomp opIdTok orgIdTok hopne s with ⟨hno, heq⟩ |
      ⟨a, t, hseq, hclean, heq⟩
    · -- no occurrence: the text is unchanged
      have hzero : occCount opIdTok s = 0 := (occCount_zero_iff hopne).mpr hno
      refine ⟨?_, ?_, ?_, ?_, [s], by simp, by simp [hzero], rfl, ?_⟩
      · show occCount opIdTok (renameStep s) = 0
        unfold renameStep
        rw [heq]
        exact hzero
      · show occCount orgIdTok (renameStep s) = occCount opIdTok s
        unfold renameStep
        rw [heq, hzero, hnonew]
      · unfold renameStep
        rw [heq]
        exact fun h => h
      · unfold renameStep
        rw [heq]
        exact fun h => h
      · show renameStep s = joinWith orgIdTok [s]
        unfold renameStep
        rw [heq]
        rfl
    · -- s = a ++ (old ++ t), first occurrence after a
      have hRs : renameStep s = a ++ (orgIdTok ++ renameStep t) := heq
      -- drops into the suffix t
      have hdropt : ∀ p, s.drop (a.length + (13 + p)) = t.drop p := by
        intro p
        rw [hseq, List.drop_append, show (13 : Nat) + p = opIdTok.length + p
          from by rw [opIdTok_len], List.drop_append]
      have hdropAt : s.drop a.length = opIdTok ++ t := by
        rw [hseq, List.drop_left]
      have hdrop12 : s.drop (a.length + 12) = '"' :: t := by
        rw [hseq, List.drop_append, List.drop_append_of_le_length
          (by rw [opIdTok_len]; omega)]
        rfl
      have hocc0 : litPref opIdTok (s.drop a.length) = true := by
        rw [hdropAt]
        exact litPref_append_self _ _
      -- no fresh tails in t
      have hot : litPref opTail t = false := by
        cases hx : litPref opTail t with
        | false => rfl
        | true =>
          exfalso
          have hocc12 : litPref opIdTok (s.drop (a.length + 12)) = true := by
            rw [hdrop12,
              show litPref opIdTok ('"' :: t) = litPref opTail t from rfl,
              hx]
          have := hov a.length (a.length + 12) hocc0 hocc12 (by omega)
          rw [opIdTok_len] at this
          omega
      have hnonew' := (occCount_zero_iff (show orgIdTok ≠ [] by decide)).mp
        hnonew
      have hnt : litPref orgTail t = false := by
        cases hx : litPref orgTail t with
        | false => rfl
        | true =>
          exfalso
          have : litPref orgIdTok (s.drop (a.length + 12)) = true := by
            rw [hdrop12,
              show litPref orgIdTok ('"' :: t) = litPref orgTail t from rfl,
              hx]
          rw [hnonew' (a.length + 12)] at this
          exact Bool.noConfusion this
      -- transfer of the hypotheses to t
      have hslen : s.length = a.length + (13 + t.length) := by
        rw [hseq]
        simp [List.length_append, opIdTok_len]
      have hov_t : overlapFree opIdTok t := by
        intro p q h1 h2 hlt
        have h1' : litPref opIdTok (s.drop (a.length + (13 + p))) = true := by
          rw [hdropt]; exact h1
        have h2' : litPref opIdTok (s.drop (a.length + (13 + q))) = true := by
          rw [hdropt]; exact h2
        have := hov _ _ h1' h2' (by omega)
        rw [opIdTok_len] at this ⊢
        omega
      have hnn_t : occCount orgIdTok t = 0 := by
        apply (occCount_zero_iff (show orgIdTok ≠ [] by decide)).mpr
        intro p
        rw [← hdropt p]
        exact hnonew' _
      obtain ⟨ih1, ih2, ih3, ih4, parts_t, hpne, hplen, hpj1, hpj2⟩ :=
        ih t (by omega) hov_t hnn_t
      -- fresh-tail exclusion on the rewritten suffix
      have hotR : litPref opTail (renameStep t) = false := by
        cases hx : litPref opTail (renameStep t) with
        | false => rfl
        | true => rw [ih3 hx] at hot; exact Bool.noConfusion hot
      have hntR : litPref orgTail (renameStep t) = false := by
        cases hx : litPref orgTail (renameStep t) with
        | false => rfl
        | true => rw [ih4 hx] at hnt; exact Bool.noConfusion hnt
      -- the two centre bCounts
      have hbOldOld : bCount opIdTok opIdTok t = 1 := by
        have hexp : bCount opIdTok opIdTok t =
            1 + (0 + (0 + (0 + (0 + (0 + (0 + (0 + (0 + (0 + (0 + (0 +
              (if litPref opIdTok ('"' :: t) then 1 else 0)))))))))))) := rfl
        have h12 : litPref opIdTok ('"' :: t) = false := by
          rw [show litPref opIdTok ('"' :: t) = litPref opTail t from rfl]
          exact hot
        rw [hexp, h12]
        simp
      have hbNewNew : bCount orgIdTok orgIdTok (renameStep t) = 1 := by
        have hexp : bCount orgIdTok orgIdTok (renameStep t) =
            1 + (0 + (0 + (0 + (0 + (0 + (0 + (0 + (0 + (0 + (0 + (0 + (0 +
              (0 + (0 + (0 +
              (if litPref orgIdTok ('"' :: renameStep t) then 1
                else 0)))))))))))))))) := rfl
        have h16 : litPref orgIdTok ('"' :: renameStep t) = false := by
          rw [show litPref orgIdTok ('"' :: renameStep t) =
            litPref orgTail (renameStep t) from rfl]
          exact hntR
        rw [hexp, h16]
        simp
      have hbOldNew : bCount opIdTok orgIdTok (renameStep t) = 0 := by
        have hexp : bCount opIdTok orgIdTok (renameStep t) =
            0 + (0 + (0 + (0 + (0 + (0 + (0 + (0 + (0 + (0 + (0 + (0 + (0 +
              (0 + (0 + (0 +
              (if litPref opIdTok ('"' :: renameStep t) then 1
                else 0)))))))))))))))) := rfl
        have h16 : litPref opIdTok ('"' :: renameStep t) = false := by
          rw [show litPref opIdTok ('"' :: renameStep t) =
            litPref opTail (renameStep t) from rfl]
          exact hotR
        rw [hexp, h16]
        simp
      -- counting in s
      have hcount_s : occCount opIdTok s = 1 + occCount opIdTok t := by
        rw [hseq, occCount_append, occCount_append]
        have hz : bCount opIdTok a (opIdTok ++ t) = 0 := by
          apply bCount_eq_zero
          intro p hp
          have := hclean p hp
          rw [hseq] at this
          exact this
        rw [hz, hbOldOld]
        omega
      -- counting in the result
      have hcount_old_R : occCount opIdTok (renameStep s) = 0 := by
        rw [hRs, occCount_append, occCount_append]
        have hz : bCount opIdTok a (orgIdTok ++ renameStep t) = 0 := by
          apply bCount_eq_zero
          intro p hp
          cases hlp : litPref opIdTok
              ((a ++ (orgIdTok ++ renameStep t)).drop p) with
          | false => rfl
          | true =>
            exfalso
            have hback := junction_old t hp hlp
            have := hclean p hp
            rw [hseq] at this
            rw [this] at hback
            exact Bool.noConfusion hback
        rw [hz, hbOldNew, ih1]
      have hcount_new_R :
          occCount orgIdTok (renameStep s) = occCount opIdTok s := by
        rw [hRs, occCount_append, occCount_append]
        have hz : bCount orgIdTok a (orgIdTok ++ renameStep t) = 0 := by
          apply bCount_eq_zero
          intro p hp
          cases hlp : litPref orgIdTok
              ((a ++ (orgIdTok ++ renameStep t)).drop p) with
          | false => rfl
          | true =>
            exfalso
            have hback := junction_new t hp hlp
            have hs' : litPref orgIdTok (s.drop p) = false := hnonew' p
            rw [hseq] at hs'
            rw [hs'] at hback
            exact Bool.noConfusion hback
        rw [hz, hbNewNew, ih2, hcount_s]
        omega
      refine ⟨hcount_old_R, hcount_new_R, ?_, ?_, a :: parts_t, by simp, ?_,
        ?_, ?_⟩
      · intro h
        rw [hRs] at h
        rw [hseq]
        exact tail_old h
      · intro h
        rw [hRs] at h
        rw [hseq]
        exact tail_new h
      · simp only [List.length_cons, hplen, hcount_s]
        omega
      · rw [joinWith_cons hpne, ← hpj1, hseq]
      · rw [hRs, joinWith_cons hpne, ← hpj2]

/-- A document with exactly five occurrences of `"operator_id"`, the first
two of which overlap in their shared quote (`"operator_id"operator_id"`). -/
def c7Cex1 : List Char :=
  ("\"operator_id\"operator_id\"x\"operator_id\"x\"operator_id\"x\"operator_id\"x").data

/-- A document with five disjoint occurrences of `"operator_id"` and one
pre-existing occurrence of `"organization_id"`. -/
def c7Cex2 : List Char :=
  ("x\"operator_id\"x\"operator_id\"x\"operator_id\"x\"operator_id\"x\"operator_id\"y\"organization_id\"z").data

/-- Claim C7, counterexample: on `c7Cex1` (exactly five occurrences of
`"operator_id"`, two of them overlapping) the rename step leaves one
occurrence of the old token and produces only four of the new one; on
`c7Cex2` (five occurrences plus a pre-existing `"organization_id"`) it
produces six occurrences of the new name instead of five.  So the claim as
stated fails. -/
theorem claim_c7_counterexample :
    occCount opIdTok c7Cex1 = 5 ∧
    occCount opIdTok (renameStep c7Cex1) = 1 ∧
    occCount orgIdTok (renameStep c7Cex1) = 4 ∧
    occCount opIdTok c7Cex2 = 5 ∧
    occCount opIdTok (renameStep c7Cex2) = 0 ∧
    occCount orgIdTok (renameStep c7Cex2) = 6 := by decide

/-- Claim C7 (amended): for every input document containing exactly five
occurrences of `"operator_id"`, no two of which overlap, and containing no
occurrence of `"organization_id"`, the rename step produces a document with
zero occurrences of `"operator_id"`, exactly five occurrences of
`"organization_id"` (at those positions), and every other character
unchanged: the document splits into six parts around the five occurrences,
and the output is exactly the same six parts joined by the new token. -/
theorem claim_c7 (s : List Char) (hov : overlapFreeUpTo opIdTok s)
    (hnonew : occCount orgIdTok s = 0) (hfive : occCount opIdTok s = 5) :
    occCount opIdTok (renameStep s) = 0 ∧
    occCount orgIdTok (renameStep s) = 5 ∧
    ∃ parts : List (List Char), parts.length = 6 ∧
      s = joinWith opIdTok parts ∧ renameStep s = joinWith orgIdTok parts := by
  obtain ⟨h1, h2, _, _, parts, _, hplen, hj1, hj2⟩ :=
    rename_master s.length s (le_refl _)
      (overlapFree_of_upTo (by decide) hov) hnonew
  refine ⟨h1, by rw [h2, hfive], parts, ?_, hj1, hj2⟩
  rw [hplen, hfive]

/-- A document with five disjoint occurrences of `"operator_id"` and no
occurrence of `"organization_id"`. -/
def c7Wit : List Char :=
  ("a\"operator_id\"b\"operator_id\"c\"operator_id\"d\"operator_id\"e\"operator_id\"f").data

theorem claim_c7_witness :
    overlapFreeUpTo opIdTok c7Wit ∧ occCount orgIdTok c7Wit = 0 ∧
    occCount opIdTok c7Wit = 5 ∧
    (occCount opIdTok (renameStep c7Wit) = 0 ∧
      occCount orgIdTok (renameStep c7Wit) = 5 ∧
      ∃ parts : List (List Char), parts.length = 6 ∧
        c7Wit = joinWith opIdTok parts ∧
        renameStep c7Wit = joinWith orgIdTok parts) :=
  ⟨by decide, by decide, by decide,
    claim_c7 c7Wit (by decide) (by decide) (by decide)⟩

end SupabaseFix
